import Mathlib

/-!
Verification of the partition extraction pipeline implemented in
`extract_utils/extract.py` (LineageOS extract-utils).

The embedding models file and path names as lists of characters
(`Name`), the dump directory as a flat list of filesystem entries
(`FS`), and the effects of external helper programs (lpunpack,
simg2img, sdat2img, ...), of Python's `re.match`, and of user supplied
extract hooks as an explicit environment (`Env`).  Everything that the
repository's own code computes is translated directly from the source;
only genuinely external behaviour (child processes, the standard
library's archive readers) is parameterised.
-/

/-- File and path names, modelled as lists of characters. -/
abbrev Name := List Char

/-- Shorthand turning a string literal into a `Name`. -/
def nm (s : String) : Name := s.toList

/-- Model of `os.path.basename`: the part of the path after the last `/`. -/
def basename (p : Name) : Name :=
  (p.reverse.takeWhile (· ≠ '/')).reverse

/-- Model of `os.path.join output_dir name` for a relative `name`: inserts `/`. -/
def pjoin (d : Name) (f : Name) : Name := d ++ '/' :: f

/-- Model of `os.path.splitext`: split at the last `.` that lies after the last
`/`, provided some character between that `/` and the `.` is not a dot
(so that dotfiles such as `.bashrc` keep their name whole).  Returns
`(root, extension-including-dot)`. -/
def splitext (p : Name) : Name × Name :=
  let rev := p.reverse
  let extRev := rev.takeWhile (fun c => c ≠ '.' && c ≠ '/')
  let rest := rev.drop extRev.length
  match rest with
  | '.' :: beforeRev =>
    if (beforeRev.takeWhile (· ≠ '/')).any (· ≠ '.') then
      (beforeRev.reverse, '.' :: extRev.reverse)
    else
      (p, [])
  | _ => (p, [])

/-- Model of `str.endswith`. -/
def endsWith (p suf : Name) : Bool := suf.isSuffixOf p

/-- Python `int` on a non-negative decimal digit string; `none` models
the `ValueError` raised on any other input (signs, whitespace and
underscore separators, which never occur in chunk indices, are not
modelled). -/
def parseNat (s : Name) : Option Nat :=
  if s ≠ [] ∧ s.all (·.isDigit) then
    some (s.foldl (fun n c => n * 10 + (c.toNat - '0'.toNat)) 0)
  else
    none

/-! ## Filesystem model

The dump directory (and everything the pipeline touches beneath it) is
modelled as a flat list of entries, each carrying its full path, a
directory flag and, for regular files, its bytes.  Lookup uses the
first matching entry; the operations below mirror the `os` functions
used by the source. -/

/-- One filesystem entry: full path, directory flag, file bytes. -/
structure Entry where
  path : Name
  isdir : Bool
  bytes : List Nat
deriving DecidableEq, Repr

/-- The filesystem state: a list of entries, first match wins. -/
abbrev FS := List Entry

/-- The Python exceptions the modelled code can raise. -/
inductive Err where
  | valueError
  | assertionError
  | fileExistsError
  | fileNotFoundError
  | notADirectoryError
deriving DecidableEq, Repr

def fsFind (fs : FS) (p : Name) : Option Entry :=
  fs.find? (fun e => e.path == p)

/-- Model of `os.path.exists`. -/
def fsExists (fs : FS) (p : Name) : Bool := (fsFind fs p).isSome

/-- Model of `os.path.isdir`. -/
def fsIsDir (fs : FS) (p : Name) : Bool :=
  match fsFind fs p with
  | some e => e.isdir
  | none => false

/-- Model of `os.path.isfile`. -/
def fsIsFile (fs : FS) (p : Name) : Bool :=
  match fsFind fs p with
  | some e => !e.isdir
  | none => false

/-- Model of `open(p, 'wb')` followed by a full write: truncate or create. -/
def fsWrite (fs : FS) (p : Name) (bytes : List Nat) : FS :=
  fs.filter (fun e => e.path ≠ p) ++ [⟨p, false, bytes⟩]

/-- Model of `os.mkdir`: raises `FileExistsError` when the path exists (parent
existence is not modelled; the pipeline only creates children of the
dump directory). -/
def fsMkdir (fs : FS) (p : Name) : Except Err FS :=
  if fsExists fs p then .error .fileExistsError
  else .ok (fs ++ [⟨p, true, []⟩])

/-- Model of `os.remove`: raises `FileNotFoundError` when the path is absent. -/
def fsRemove (fs : FS) (p : Name) : Except Err FS :=
  if fsExists fs p then .ok (fs.filter (fun e => e.path ≠ p))
  else .error .fileNotFoundError

/-- Does `p` equal `pre` or lie strictly below directory `pre`? -/
def underPrefix (pre p : Name) : Bool :=
  p == pre || (pre ++ ['/']).isPrefixOf p

/-- Rewrite the leading `src` of a path to `dst`. -/
def replacePrefix (src dst p : Name) : Name :=
  if underPrefix src p then dst ++ p.drop src.length else p

/-- Model of `os.rename`: the source entry (and, for directories, its subtree)
is moved to the destination path; an existing destination file is
replaced (POSIX).  Raises `FileNotFoundError` when the source is
absent. -/
def fsRename (fs : FS) (src dst : Name) : Except Err FS :=
  if fsExists fs src then
    .ok ((fs.filter (fun e => !(e.path == dst))).map
      (fun e => ⟨replacePrefix src dst e.path, e.isdir, e.bytes⟩))
  else
    .error .fileNotFoundError

/-- Model of `shutil.move src dst`: when `dst` is an existing directory the real
destination is `dst/basename src`; moving onto an existing path fails
(modelled as `NotADirectoryError`, standing for the several errors the
real call can raise in that situation). -/
def shutilMove (fs : FS) (src dst : Name) : Except Err FS :=
  let realDst := if fsIsDir fs dst then pjoin dst (basename src) else dst
  if fsExists fs realDst then .error .notADirectoryError
  else if fsExists fs src then
    .ok (fs.map (fun e => ⟨replacePrefix src realDst e.path, e.isdir, e.bytes⟩))
  else .error .fileNotFoundError

/-- Model of `os.scandir input_path`, restricted to the names of the direct
children: entries whose path extends `input_path/` by a single
component, in filesystem (list) order.  Returns `(name, entry)`
pairs. -/
def scandir (fs : FS) (inputPath : Name) : List (Name × Entry) :=
  fs.filterMap (fun e =>
    let p := e.path
    if (inputPath ++ ['/']).isPrefixOf p then
      let rest := p.drop (inputPath.length + 1)
      if rest ≠ [] ∧ '/' ∉ rest then some (rest, e) else none
    else none)

/-- Model of `f.seek(position); f.read(len magic)` on a file's bytes. -/
def readBytes (bytes : List Nat) (position len : Nat) : List Nat :=
  (bytes.drop position).take len

/-! ## Context and environment -/

/-- Model of `ExtractCtx` (extract.py:58-94).  `extract_fns` maps a pattern to
the list of hook identifiers registered for it (the source also
accepts a bare callable, which it normalises to a one-element list);
hook behaviour itself is environmental. -/
structure Ctx where
  keep_dump : Bool := false
  extract_fns : List (Name × List Nat) := []
  extract_partitions : List Name := []
  firmware_partitions : List Name := []
  extra_partitions : List Name := []
  firmware_files : List Name := []
  factory_files : List Name := []
  extra_files : List Name := []
  extract_all : Bool := false
deriving DecidableEq, Repr

/-- External behaviour the repository code merely invokes: child
processes (`Popen`), `re.match`, the archive readers and user hooks.
`run label argv fs` returns whether the process exited 0 and the
filesystem it left behind. -/
structure Env where
  run : Name → List Name → FS → Bool × FS
  rmatch : Name → Name → Bool
  hook : Nat → Ctx → Name → Name → FS → Option Name × Ctx × FS
  zipNamelist : List Name
  zipContent : Name → List Nat
  tarNames : List Name
  tarContent : Name → Option (List Nat)

/-- Model of `process_cmds_in_parallel` (utils.py:100-124): all commands are
spawned, then collected in submission order; successes are the labels
of the commands that exited 0.  With `fatal` set, any failure raises
`ValueError` (after every child has run).  Child-process effects are
applied in submission order, an arbitrary but fixed serialisation of
the concurrent execution. -/
def process_cmds_in_parallel (env : Env) (input_cmds : List (Name × List Name))
    (fatal : Bool) (fs : FS) : Except Err (List Name × FS) :=
  let step := fun (acc : List Name × Bool × FS) (cmd : Name × List Name) =>
    let (ok, fs') := env.run cmd.1 cmd.2 acc.2.2
    if ok then (acc.1 ++ [cmd.1], acc.2.1, fs') else (acc.1, true, fs')
  let r := input_cmds.foldl step ([], false, fs)
  if fatal ∧ r.2.1 then .error .valueError else .ok (r.1, r.2.2)

/-! ## Constants and name-level helpers from extract.py -/

def ALTERNATE_PARTITION_PATH_MAP : List (Name × Name) :=
  [(nm "product", nm "system/product"),
   (nm "system_ext", nm "system/system_ext"),
   (nm "vendor", nm "system/vendor"),
   (nm "odm", nm "vendor/odm")]

def BROTLI_EXT : Name := nm ".new.dat.br"
def SPARSE_DATA_EXT : Name := nm ".new.dat"
def TRANSFER_LIST_EXT : Name := nm ".transfer.list"
def SPARSE_CHUNK_SUFFIX : Name := nm "_sparsechunk"
def PAYLOAD_BIN_FILE_NAME : Name := nm "payload.bin"
def SUPER_PARTITION_NAME : Name := nm "super"
def SUPER_IMG_NAME : Name := nm "super.img"

/-- Model of `file_name_to_partition` (extract.py:97-98): the part of the name
before the first `.` (`split('.', 1)[0]`). -/
def file_name_to_partition (file_name : Name) : Name :=
  file_name.takeWhile (· ≠ '.')

/-- Model of `dict.get` on the alternate-partition map. -/
def alternateGet (partition : Name) : Option Name :=
  (ALTERNATE_PARTITION_PATH_MAP.find? (fun e => e.1 == partition)).map (·.2)

/-- Model of `find_alternate_partitions` (extract.py:147-169). -/
def find_alternate_partitions (extract_partitions : List Name)
    (found_partitions : List Name) : List Name :=
  extract_partitions.foldl
    (fun new_extract_partitions partition =>
      if partition ∈ found_partitions then new_extract_partitions
      else
        match alternateGet partition with
        | none => new_extract_partitions
        | some alternate_partition_path =>
          let alternate_partition := alternate_partition_path.takeWhile (· ≠ '/')
          if alternate_partition ∈ found_partitions ∨
              alternate_partition ∈ new_extract_partitions then
            new_extract_partitions
          else
            new_extract_partitions ++ [alternate_partition])
    []

/-- A Python `set` of names, modelled as an insertion-ordered list
without duplicates (set iteration order is unspecified in Python; all
theorems below only depend on membership). -/
def setAdd (s : List Name) (x : Name) : List Name :=
  if x ∈ s then s else s ++ [x]

/-- Model of `_filter_files` (extract.py:172-204).  Returns the selected paths
together with the updated `found_partitions` set.  Note that the
pattern branch has no `continue`: a file matching several patterns is
appended once per matching pattern. -/
def filter_files_once (extract_partitions extract_file_names : List Name)
    (extract_fns : List (Name × List Nat)) (rmatch : Name → Name → Bool)
    (file_paths : List Name) (found_partitions : List Name) :
    List Name × List Name :=
  file_paths.foldl
    (fun (acc : List Name × List Name) file_path =>
      let (found_file_paths, found) := acc
      let file_name := basename file_path
      if file_name ∈ extract_partitions then
        (found_file_paths ++ [file_path], setAdd found file_name)
      else
        let partition := file_name_to_partition file_name
        if partition ∈ extract_partitions then
          (found_file_paths ++ [file_path], setAdd found partition)
        else if file_name ∈ extract_file_names then
          (found_file_paths ++ [file_path], found)
        else
          (found_file_paths ++
            (extract_fns.filterMap (fun pat =>
              if rmatch pat.1 file_name then some file_path else none)),
           found))
    ([], found_partitions)

/-- The `while extract_partitions:` loop of `filter_files`
(extract.py:218-235), written with explicit fuel.  Fuel 4 is exact:
after the first pass every further wanted set is contained in
`{system, vendor}`, then in `{system}`, then empty (see
`find_alternate_partitions_third_iterate`), so at most three passes
run and the loop is stable for any fuel of at least 4. -/
def filterFilesLoop (rmatch : Name → Name → Bool) :
    Nat → List Name → List Name → List (Name × List Nat) → List Name →
    List Name → List Name → List Name × List Name
  | 0, _, _, _, _, found, acc => (acc, found)
  | fuel + 1, extract_partitions, extract_file_names, extract_fns,
      file_paths, found, acc =>
    if extract_partitions = [] then (acc, found)
    else
      let (newPaths, found') := filter_files_once extract_partitions
        extract_file_names extract_fns rmatch file_paths found
      let next := find_alternate_partitions extract_partitions found'
      -- Prevent loop from adding matching files again, only partitions
      -- have alternatives
      filterFilesLoop rmatch fuel next [] [] file_paths found' (acc ++ newPaths)

/-- Model of `filter_files` (extract.py:207-237); also returns the final
`found_partitions` set, which the source communicates through the
caller-provided mutable set. -/
def filter_files (partition_lists : List (List Name))
    (file_name_lists : List (List Name)) (found_partitions : List Name)
    (extract_fns : List (Name × List Nat)) (rmatch : Name → Name → Bool)
    (file_paths : List Name) : List Name × List Name :=
  let extract_partitions := partition_lists.foldl (· ++ ·) []
  let extract_file_names := file_name_lists.foldl (· ++ ·) []
  filterFilesLoop rmatch 4 extract_partitions extract_file_names extract_fns
    file_paths found_partitions []

/-- Model of `filter_extract_file_paths` (extract.py:240-261). -/
def filter_extract_file_paths (ctx : Ctx) (rmatch : Name → Name → Bool)
    (file_paths : List Name) : List Name :=
  if ctx.extract_all then file_paths
  else
    (filter_files
      [ctx.extract_partitions, ctx.firmware_partitions, ctx.extra_partitions]
      [ctx.firmware_files, ctx.factory_files, ctx.extra_files]
      [] ctx.extract_fns rmatch file_paths).1

/-- Model of `filter_extract_partitions` (extract.py:264-276): the set of
partitions whose files are present among `file_paths`. -/
def filter_extract_partitions (extract_partitions : List Name)
    (file_paths : List Name) : List Name :=
  (filter_files [extract_partitions] [] [] [] (fun _ _ => false) file_paths).2

/-- Model of `update_extract_partitions` (extract.py:279-285). -/
def update_extract_partitions (ctx : Ctx) (input_path : Name) (fs : FS) : Ctx :=
  let file_paths := (scandir fs input_path).filterMap
    (fun fe => if !fe.2.isdir then some fe.2.path else none)
  { ctx with extract_partitions :=
      filter_extract_partitions ctx.extract_partitions file_paths }

/-! ## File discovery and per-format extraction steps -/

/-- Model of `find_files` (extract.py:101-133): scan `input_path` for regular
files, keep those whose partition (or full name) is wanted, whose name
carries the requested extension, and whose bytes carry the requested
magic at the requested position.  Returns full paths in scan order. -/
def find_files (extract_partitions : Option (List Name)) (input_path : Name)
    (fs : FS) (magic : Option (List Nat) := none) (position : Nat := 0)
    (ext : Option Name := none) : List Name :=
  (scandir fs input_path).filterMap (fun fe =>
    let (fname, e) := fe
    if e.isdir then none
    else
      let partition := file_name_to_partition fname
      let partitionSkip :=
        match extract_partitions with
        | some ps => partition ∉ ps && fname ∉ ps
        | none => false
      let extSkip :=
        match ext with
        | some x => !endsWith fname x
        | none => false
      let magicSkip :=
        match magic with
        | some m => readBytes e.bytes position m.length ≠ m
        | none => false
      if partitionSkip || extSkip || magicSkip then none else some e.path)

def find_sparse_raw_paths (extract_partitions : List Name) (input_path : Name)
    (fs : FS) : List Name :=
  -- 0xED26FF3A little-endian
  find_files (some extract_partitions) input_path fs (some [0x3A, 0xFF, 0x26, 0xED])

def find_erofs_paths (extract_partitions : List Name) (input_path : Name)
    (fs : FS) : List Name :=
  -- 0xE0F5E1E2 little-endian at offset 1024
  find_files (some extract_partitions) input_path fs (some [0xE2, 0xE1, 0xF5, 0xE0]) 1024

def find_ext4_paths (extract_partitions : List Name) (input_path : Name)
    (fs : FS) : List Name :=
  -- 0xEF53 little-endian at offset 1080
  find_files (some extract_partitions) input_path fs (some [0x53, 0xEF]) 1080

def find_payload_paths (extract_partitions : List Name) (input_path : Name)
    (fs : FS) : List Name :=
  -- b'CrAU'
  find_files (some extract_partitions) input_path fs (some [0x43, 0x72, 0x41, 0x55])

def find_super_img_paths (extract_partitions : List Name) (input_path : Name)
    (fs : FS) : List Name :=
  -- 0x616C4467 little-endian at offset 4096
  find_files (some extract_partitions) input_path fs (some [0x67, 0x44, 0x6C, 0x61]) 4096

def find_brotli_paths (extract_partitions : List Name) (input_path : Name)
    (fs : FS) : List Name :=
  find_files (some extract_partitions) input_path fs none 0 (some BROTLI_EXT)

def find_sparse_data_paths (extract_partitions : List Name) (input_path : Name)
    (fs : FS) : List Name :=
  find_files (some extract_partitions) input_path fs none 0 (some SPARSE_DATA_EXT)

/-- Model of `remove_file_paths` (extract.py:329-338). -/
def remove_file_paths (fs : FS) (file_paths : List Name) : Except Err FS :=
  file_paths.foldlM fsRemove fs

def ota_extractor_path : Name := nm "ota_extractor"
def lpunpack_path : Name := nm "lpunpack"
def simg2img_path : Name := nm "simg2img"
def brotli_path : Name := nm "brotli"
def sdat2img_path : Name := nm "sdat2img"

/-- Model of `_extract_payload_bin` (extract.py:341-369): probe the payload for
every wanted partition, best effort; returns the labels that
succeeded. -/
def extract_payload_bin_once (env : Env) (extract_partitions : List Name)
    (file_path output_dir : Name) (fs : FS) : Except Err (List Name × FS) :=
  let procs := extract_partitions.map (fun partition =>
    (partition,
     [ota_extractor_path, nm "--payload", file_path, nm "--output-dir",
      output_dir, nm "--partitions", partition]))
  process_cmds_in_parallel env procs false fs

/-- The `while` loop of `extract_payload_bin` (extract.py:372-384),
with fuel; fuel 4 is exact by the same argument as for
`filterFilesLoop`. -/
def extractPayloadBinLoop (env : Env) (file_path output_dir : Name) :
    Nat → List Name → FS → Except Err FS
  | 0, _, fs => .ok fs
  | fuel + 1, extract_partitions, fs =>
    if extract_partitions = [] then .ok fs
    else do
      let (found_partitions, fs) ← extract_payload_bin_once env
        extract_partitions file_path output_dir fs
      extractPayloadBinLoop env file_path output_dir fuel
        (find_alternate_partitions extract_partitions found_partitions) fs

/-- Model of `extract_payload_bin` (extract.py:372-384). -/
def extract_payload_bin (env : Env) (ctx : Ctx) (file_path output_dir : Name)
    (fs : FS) : Except Err FS :=
  extractPayloadBinLoop env file_path output_dir 4
    (ctx.extract_partitions ++ ctx.firmware_partitions) fs

/-- Model of `partition_chunk_index` (extract.py:387-390): the integer value of
the extension (without its dot); `none` models the `ValueError` of
`int` on a malformed index. -/
def partition_chunk_index (file_path : Name) : Option Nat :=
  parseNat ((splitext file_path).2.drop 1)

/-- Loop body of the first phase of `extract_sparse_raw_imgs`
(extract.py:397-417): rename a bare sparse image to `…_sparsechunk.0`
and add the chunk path to its output file's group (a Python dict keeps
insertion order). -/
def sparseRawGroupStep (acc : List Name × List (Name × List Name) × FS)
    (file_path : Name) : List Name × List (Name × List Name) × FS :=
  let (new_file_paths, chunks_map, fs) := acc
  let file_name := basename file_path
  let base_file_name := (splitext file_name).1
  let (output_file_name, file_path', fs') :=
    if endsWith base_file_name SPARSE_CHUNK_SUFFIX then
      (base_file_name.take (base_file_name.length - SPARSE_CHUNK_SUFFIX.length),
       file_path, fs)
    else
      -- Rename single sparse image to _sparsechunk.0 to avoid
      -- naming conflicts
      let sparse_file_path := file_path ++ SPARSE_CHUNK_SUFFIX ++ nm ".0"
      (file_name, sparse_file_path,
       (fsRename fs file_path sparse_file_path).toOption.getD fs)
  let chunks_map' :=
    if (chunks_map.find? (fun kv => kv.1 == output_file_name)).isSome then
      chunks_map.map (fun kv =>
        if kv.1 == output_file_name then (kv.1, kv.2 ++ [file_path']) else kv)
    else
      chunks_map ++ [(output_file_name, [file_path'])]
  (new_file_paths ++ [file_path'], chunks_map', fs')

/-- First phase of `extract_sparse_raw_imgs` (extract.py:393-417). -/
def sparseRawGroup (file_paths : List Name) (fs : FS) :
    List Name × List (Name × List Name) × FS :=
  file_paths.foldl sparseRawGroupStep ([], [], fs)

/-- Second phase of `extract_sparse_raw_imgs` (extract.py:419-430):
sort each group by chunk index (`list.sort` is stable mergesort on the
key) and build the `simg2img` command lines.  A malformed chunk index
makes the Python `key` call raise; this is modelled by failing the
whole phase. -/
def sparseRawProcs (chunks_map : List (Name × List Name)) (output_dir : Name) :
    Except Err (List (Name × List Name)) :=
  chunks_map.mapM (fun kv =>
    let (output_file_name, partition_chunks) := kv
    if partition_chunks.all (fun c => (partition_chunk_index c).isSome) then
      let output_file_path := pjoin output_dir output_file_name
      let sorted := partition_chunks.mergeSort (fun a b =>
        (partition_chunk_index a).getD 0 ≤ (partition_chunk_index b).getD 0)
      .ok (output_file_name, simg2img_path :: sorted ++ [output_file_path])
    else .error .valueError)

/-- Model of `extract_sparse_raw_imgs` (extract.py:393-434). -/
def extract_sparse_raw_imgs (env : Env) (file_paths : List Name)
    (output_dir : Name) (fs : FS) : Except Err (List Name × FS) := do
  let (new_file_paths, chunks_map, fs) := sparseRawGroup file_paths fs
  let procs ← sparseRawProcs chunks_map output_dir
  let (_, fs) ← process_cmds_in_parallel env procs true fs
  .ok (new_file_paths, fs)

/-- Model of `unslot_partition` (extract.py:437-438): `rsplit('_', 1)[0]` —
everything before the last underscore, or the whole name when it has
no underscore. -/
def unslot_partition (partition_slot : Name) : Name :=
  let rev := partition_slot.reverse
  let afterRev := rev.takeWhile (· ≠ '_')
  match rev.drop afterRev.length with
  | [] => partition_slot
  | _ :: beforeRev => beforeRev.reverse

/-- The `lpunpack` probe commands of `_extract_super_img`
(extract.py:448-464): every wanted partition at both slot suffixes. -/
def superImgProcs (extract_partitions : List Name)
    (file_path output_dir : Name) : List (Name × List Name) :=
  extract_partitions.foldl
    (fun procs partition =>
      procs ++ [nm "", nm "_a"].map (fun slot =>
        let partition_slot := partition ++ slot
        (partition_slot,
         [lpunpack_path, nm "--partition", partition_slot, file_path, output_dir])))
    []

/-- Model of `_extract_super_img` (extract.py:441-484): probe every wanted
partition at both slot suffixes, assert that the success labels are
pairwise distinct, then rename each successfully unpacked slotted
image to its unslotted name. -/
def extract_super_img_once (env : Env) (extract_partitions : List Name)
    (file_path output_dir : Name) (fs : FS) : Except Err (List Name × FS) := do
  let procs := superImgProcs extract_partitions file_path output_dir
  let (ret_success, fs) ← process_cmds_in_parallel env procs false fs
  -- Make sure that there are no duplicates
  if ret_success.length ≠ ret_success.dedup.length then .error .assertionError
  else
    ret_success.foldlM
      (fun (acc : List Name × FS) partition_slot => do
        let (found_partitions, fs) := acc
        let partition := unslot_partition partition_slot
        let found_partitions := found_partitions ++ [partition]
        if partition == partition_slot then .ok (found_partitions, fs)
        else do
          let partition_path := pjoin output_dir (partition ++ nm ".img")
          let partition_slot_path := pjoin output_dir (partition_slot ++ nm ".img")
          let fs ← fsRename fs partition_slot_path partition_path
          .ok (found_partitions, fs))
      ([], fs)

/-- The `while` loop of `extract_super_img` (extract.py:487-499), with
fuel; fuel 4 is exact as for `filterFilesLoop`. -/
def extractSuperImgLoop (env : Env) (file_path output_dir : Name) :
    Nat → List Name → FS → Except Err FS
  | 0, _, fs => .ok fs
  | fuel + 1, extract_partitions, fs =>
    if extract_partitions = [] then .ok fs
    else do
      let (found_partitions, fs) ← extract_super_img_once env
        extract_partitions file_path output_dir fs
      extractSuperImgLoop env file_path output_dir fuel
        (find_alternate_partitions extract_partitions found_partitions) fs

/-- Model of `extract_super_img` (extract.py:487-499). -/
def extract_super_img (env : Env) (ctx : Ctx) (file_path output_dir : Name)
    (fs : FS) : Except Err FS :=
  extractSuperImgLoop env file_path output_dir 4 ctx.extract_partitions fs

/-- Model of `extract_brotli_imgs` (extract.py:502-513). -/
def extract_brotli_imgs (env : Env) (file_paths : List Name)
    (output_path : Name) (fs : FS) : Except Err FS := do
  let procs := file_paths.map (fun file_path =>
    let file_name := basename file_path
    let output_file_name := (splitext file_name).1
    let output_file_path := pjoin output_path output_file_name
    (file_name, [brotli_path, nm "-d", file_path, nm "-o", output_file_path]))
  let (_, fs) ← process_cmds_in_parallel env procs true fs
  .ok fs

/-- Model of `extract_sparse_data_imgs` (extract.py:516-541): run `sdat2img` on
every `<p>.new.dat` with its sibling `<p>.transfer.list`.  The
`assert` on the extension is modelled; the function itself deletes
nothing. -/
def extract_sparse_data_imgs (env : Env) (file_paths : List Name)
    (output_path : Name) (fs : FS) : Except Err FS := do
  let procs ← file_paths.mapM (fun file_path =>
    if !endsWith file_path SPARSE_DATA_EXT then .error .assertionError
    else
      let base_file_path := file_path.take (file_path.length - SPARSE_DATA_EXT.length)
      let transfer_file_path := base_file_path ++ TRANSFER_LIST_EXT
      let base_file_name := basename base_file_path
      let img_file_name := base_file_name ++ nm ".img"
      let output_file_path := pjoin output_path img_file_name
      .ok (base_file_name,
        [sdat2img_path, transfer_file_path, file_path, output_file_path]))
  let (_, fs) ← process_cmds_in_parallel env procs true fs
  .ok fs

/-- Model of `extract_erofs` (extract.py:544-564): `os.mkdir` the partition
directory for every image, then dispatch `fsck.erofs` for all of them. -/
def extract_erofs (env : Env) (file_paths : List Name) (output_path : Name)
    (fs : FS) : Except Err FS := do
  let (procs, fs) ← file_paths.foldlM
    (fun (acc : List (Name × List Name) × FS) file_path => do
      let (procs, fs) := acc
      let base_file_name := basename file_path
      let partition_name := (splitext base_file_name).1
      let partition_output_path := pjoin output_path partition_name
      let fs ← fsMkdir fs partition_output_path
      .ok (procs ++ [(base_file_name,
        [nm "fsck.erofs", nm "--extract=" ++ partition_output_path, file_path])],
        fs))
    ([], fs)
  let (_, fs) ← process_cmds_in_parallel env procs true fs
  .ok fs

/-- Model of `extract_ext4` (extract.py:567-590): `os.mkdir` the partition
directory for every image, then dispatch `debugfs -R "rdump / DIR"`. -/
def extract_ext4 (env : Env) (file_paths : List Name) (output_path : Name)
    (fs : FS) : Except Err FS := do
  let (procs, fs) ← file_paths.foldlM
    (fun (acc : List (Name × List Name) × FS) file_path => do
      let (procs, fs) := acc
      let base_file_name := basename file_path
      let partition_name := (splitext base_file_name).1
      let partition_output_path := pjoin output_path partition_name
      let fs ← fsMkdir fs partition_output_path
      .ok (procs ++ [(base_file_name,
        [nm "debugfs", nm "-R",
         nm "rdump / " ++ partition_output_path, file_path])],
        fs))
    ([], fs)
  let (_, fs) ← process_cmds_in_parallel env procs true fs
  .ok fs

/-! ## Dump directory acquisition, archive unpacking, hooks, layout -/

/-- Which directory `get_dump_dir` yields, with its lifecycle tag. -/
inductive DumpDirResult where
  | sourceDir (d : Name)
  | tempDir
  | existingDir (d : Name)
  | newDir (d : Name)
deriving DecidableEq, Repr

/-- Model of `get_dump_dir` (extract.py:593-637), modelled up to its first
`yield`: which directory is handed to the body, or which exception is
raised.  (In this filesystem model every existing path is a file or a
directory, so the second `ValueError` guard of the source, for other
file types at `source`, cannot fire and is omitted.) -/
def get_dump_dir (fs : FS) (source : Name) (ctx : Ctx) :
    Except Err DumpDirResult :=
  if ¬ fsExists fs source then .error .fileNotFoundError
  else if fsIsDir fs source then
    -- Source is a directory, try to extract its contents into itself
    .ok (.sourceDir source)
  else if !ctx.keep_dump then
    -- We don't want to keep the dump, ignore previous dump output
    -- and use a temporary directory to extract
    .ok .tempDir
  else
    -- Remove the extension from the file and use it as a dump dir
    let dump_dir := (splitext source).1
    if fsIsDir fs dump_dir then .ok (.existingDir dump_dir)
    else if fsExists fs dump_dir then .error .valueError
    else .ok (.newDir dump_dir)

/-- Model of `extract_zip` (extract.py:656-673): list the archive, filter, then
extract the selected members concurrently.  `ProcessPoolExecutor (len
file_paths)` raises `ValueError` when `max_workers` is not positive
(concurrent.futures), i.e. exactly when the filter selected nothing. -/
def extract_zip (env : Env) (source : Name) (ctx : Ctx) (dump_dir : Name)
    (fs : FS) : Except Err FS :=
  let file_paths := env.zipNamelist
  let file_paths := filter_extract_file_paths ctx env.rmatch file_paths
  if file_paths.length = 0 then .error .valueError
  else
    .ok (file_paths.foldl (fun fs file_path =>
      fsWrite fs (pjoin dump_dir (basename file_path))
        (env.zipContent file_path)) fs)

/-- Model of `extract_tar` (extract.py:676-697): members whose `extractfile` is
`None` are skipped. -/
def extract_tar (env : Env) (source : Name) (ctx : Ctx) (dump_dir : Name)
    (fs : FS) : Except Err FS :=
  let file_paths := filter_extract_file_paths ctx env.rmatch env.tarNames
  .ok (file_paths.foldl (fun fs file_path =>
    match env.tarContent file_path with
    | none => fs
    | some bytes => fsWrite fs (pjoin dump_dir (basename file_path)) bytes) fs)

/-- Model of `extract_image_file` (extract.py:700-713). -/
def extract_image_file (env : Env) (source : Name) (ctx : Ctx)
    (dump_dir : Name) (fs : FS) : Except Err FS :=
  if endsWith source (nm ".zip") then extract_zip env source ctx dump_dir fs
  else if endsWith source (nm ".tar.gz") || endsWith source (nm ".tgz") ||
      endsWith source (nm ".tar") then
    extract_tar env source ctx dump_dir fs
  else .error .valueError

/-- Model of `run_extract_fns` (extract.py:801-823): for each pattern, scan the
dump dir, run every registered hook on every match, then delete the
set of paths the hooks reported as consumed. -/
def run_extract_fns (env : Env) (ctx : Ctx) (dump_dir : Name) (fs : FS) :
    Except Err (Ctx × FS) :=
  ctx.extract_fns.foldlM
    (fun (acc : Ctx × FS) pat => do
      let (ctx, fs) := acc
      let (extract_pattern, fns) := pat
      let found_files := (scandir fs dump_dir).filterMap
        (fun fe => if env.rmatch extract_pattern fe.1 then some fe.2.path else none)
      let (processed_files, ctx, fs) :=
        found_files.foldl
          (fun (acc : List Name × Ctx × FS) file_path =>
            fns.foldl
              (fun (acc : List Name × Ctx × FS) fnId =>
                let (processed, ctx, fs) := acc
                let (processed_file, ctx, fs) := env.hook fnId ctx file_path dump_dir fs
                match processed_file with
                | some p => (setAdd processed p, ctx, fs)
                | none => (processed, ctx, fs))
              acc)
          ([], ctx, fs)
      let fs ← remove_file_paths fs processed_files
      .ok (ctx, fs))
    (ctx, fs)

/-- Model of `move_alternate_partition_paths` (extract.py:826-842). -/
def move_alternate_partition_paths (fs : FS) (dump_dir : Name) :
    Except Err FS :=
  ALTERNATE_PARTITION_PATH_MAP.foldlM
    (fun fs pa => do
      let (partition, alternate_partition_path) := pa
      let partition_path := pjoin dump_dir partition
      if fsIsDir fs partition_path then .ok fs
      else
        let partition_path := pjoin dump_dir alternate_partition_path
        if !fsIsDir fs partition_path then .ok fs
        else shutilMove fs partition_path dump_dir)
    fs

/-- Model of `move_sar_system_paths` (extract.py:845-855). -/
def move_sar_system_paths (fs : FS) (dump_dir : Name) : Except Err FS :=
  let system_dir := pjoin dump_dir (nm "system")
  let system_system_dir := pjoin system_dir (nm "system")
  if fsIsDir fs system_system_dir then do
    let system_root_dir := pjoin dump_dir (nm "system_root")
    let system_root_system_dir := pjoin system_root_dir (nm "system")
    let fs ← shutilMove fs system_dir system_root_dir
    shutilMove fs system_root_system_dir dump_dir
  else .ok fs

/-- Model of `filter_already_extracted_partitions` (extract.py:858-872). -/
def filter_already_extracted_partitions (dump_dir : Name) (ctx : Ctx)
    (fs : FS) : Except Err Ctx := do
  let not_extracted_partitions ← ctx.extract_partitions.foldlM
    (fun (acc : List Name) partition => do
      let dump_partition_dir := pjoin dump_dir partition
      if fsIsDir fs dump_partition_dir then .ok acc
      else if fsExists fs dump_partition_dir then .error (Err.valueError)
      else .ok (acc ++ [partition]))
    []
  .ok { ctx with extract_partitions := not_extracted_partitions }

/-- The final loop of `extract_image` (extract.py:790-798): stub any
requested partition still lacking a directory. -/
def stubPartitionDirs (dump_dir : Name) : List Name → FS → Except Err FS
  | [], fs => .ok fs
  | partition :: rest, fs =>
    let dump_partition_dir := pjoin dump_dir partition
    if fsIsDir fs dump_partition_dir then stubPartitionDirs dump_dir rest fs
    else do
      -- Create empty partition dir to prevent re-extraction
      let fs ← fsMkdir fs dump_partition_dir
      stubPartitionDirs dump_dir rest fs

/-- Model of `extract_image` (extract.py:716-788), everything before the final
stub loop: context augmentation, archive unpacking, hook pass 1, the
payload / sparse-raw / super stages, the `extract_partitions`
refinement, the brotli / sparse-data / EROFS / EXT4 stages, hook pass
2 and the layout moves. -/
def extract_image_pre (env : Env) (source : Name) (ctx : Ctx)
    (dump_dir : Name) (fs : FS) : Except Err (Ctx × FS) := do
  let source_is_file := fsIsFile fs source
  let ctx := { ctx with
    extra_partitions := ctx.extra_partitions ++ [SUPER_PARTITION_NAME],
    extra_files := ctx.extra_files ++ [PAYLOAD_BIN_FILE_NAME] }
  let fs ←
    if source_is_file then extract_image_file env source ctx dump_dir fs
    else .ok fs
  let (ctx, fs) ← run_extract_fns env ctx dump_dir fs
  let payload_bin_paths := find_payload_paths [PAYLOAD_BIN_FILE_NAME] dump_dir fs
  let fs ←
    if payload_bin_paths.isEmpty then .ok fs
    else if payload_bin_paths.length ≠ 1 then .error Err.assertionError
    else do
      let fs ← extract_payload_bin env ctx (payload_bin_paths.headD []) dump_dir fs
      remove_file_paths fs payload_bin_paths
  let sparse_raw_paths := find_sparse_raw_paths
    (ctx.extract_partitions ++ [SUPER_PARTITION_NAME]) dump_dir fs
  let fs ←
    if sparse_raw_paths.isEmpty then .ok fs
    else do
      -- Single sparse files are renamed to _sparsechunk.0 to avoid
      -- naming conflicts; retrieve the updated file paths
      let (sparse_raw_paths, fs) ← extract_sparse_raw_imgs env sparse_raw_paths
        dump_dir fs
      remove_file_paths fs sparse_raw_paths
  let super_img_paths := find_super_img_paths [SUPER_IMG_NAME] dump_dir fs
  let fs ←
    if super_img_paths.isEmpty then .ok fs
    else if super_img_paths.length ≠ 1 then .error Err.assertionError
    else do
      let fs ← extract_super_img env ctx (super_img_paths.headD []) dump_dir fs
      remove_file_paths fs super_img_paths
  -- Now that all partitions that could have been unpacked from their
  -- containers have been unpacked, update the extract_partitions
  -- to handle alternate partitions
  let ctx := update_extract_partitions ctx dump_dir fs
  let brotli_paths := find_brotli_paths ctx.extract_partitions dump_dir fs
  let fs ←
    if brotli_paths.isEmpty then .ok fs
    else do
      let fs ← extract_brotli_imgs env brotli_paths dump_dir fs
      remove_file_paths fs brotli_paths
  let sparse_data_paths := find_sparse_data_paths ctx.extract_partitions
    dump_dir fs
  let fs ←
    if sparse_data_paths.isEmpty then .ok fs
    else do
      let fs ← extract_sparse_data_imgs env sparse_data_paths dump_dir fs
      remove_file_paths fs sparse_data_paths
  let erofs_paths := find_erofs_paths ctx.extract_partitions dump_dir fs
  let fs ←
    if erofs_paths.isEmpty then .ok fs
    else do
      let fs ← extract_erofs env erofs_paths dump_dir fs
      remove_file_paths fs erofs_paths
  let ext4_paths := find_ext4_paths ctx.extract_partitions dump_dir fs
  let fs ←
    if ext4_paths.isEmpty then .ok fs
    else do
      let fs ← extract_ext4 env ext4_paths dump_dir fs
      remove_file_paths fs ext4_paths
  let (ctx, fs) ← run_extract_fns env ctx dump_dir fs
  let fs ← move_sar_system_paths fs dump_dir
  let fs ← move_alternate_partition_paths fs dump_dir
  .ok (ctx, fs)

/-- Model of `extract_image` (extract.py:716-798): the stages above followed by
the stub loop over the (by then refined) `extract_partitions`. -/
def extract_image (env : Env) (source : Name) (ctx : Ctx) (dump_dir : Name)
    (fs : FS) : Except Err (Ctx × FS) := do
  let (ctx, fs) ← extract_image_pre env source ctx dump_dir fs
  let fs ← stubPartitionDirs dump_dir ctx.extract_partitions fs
  .ok (ctx, fs)

/-! ## Concrete runs used by the theorems below -/

/-- An environment where every child process fails, no pattern
matches and no hooks are registered. -/
def envNone : Env where
  run := fun _ _ fs => (false, fs)
  rmatch := fun _ _ => false
  hook := fun _ ctx _ _ fs => (none, ctx, fs)
  zipNamelist := []
  zipContent := fun _ => []
  tarNames := []
  tarContent := fun _ => none

/-- A request for `system` and `vendor`. -/
def ctxSystemVendor : Ctx := { extract_partitions := [nm "system", nm "vendor"] }

/-- A dump directory containing a single unrecognised file belonging
to the `system` partition. -/
def fsSystemMap : FS :=
  [⟨nm "dump", true, []⟩, ⟨nm "dump/system.map", false, []⟩]

/-- A request for `system` only. -/
def ctxSystem : Ctx := { extract_partitions := [nm "system"] }

/-- An environment where only the `sdat2img` invocation for `system`
succeeds, producing `dump/system.img`. -/
def envSdat : Env :=
  { envNone with run := fun label _ fs =>
      if label == nm "system" then
        (true, fsWrite fs (pjoin (nm "dump") (nm "system.img")) [])
      else (false, fs) }

/-- A dump directory holding a sparse-data pair for `system`. -/
def fsSparseData : FS :=
  [⟨nm "dump", true, []⟩,
   ⟨nm "dump/system.new.dat", false, []⟩,
   ⟨nm "dump/system.transfer.list", false, []⟩]

/-- A source file `fw.zip` whose extension-stripped sibling `fw`
exists as a regular file. -/
def fsSiblingFile : FS :=
  [⟨nm "fw.zip", false, []⟩, ⟨nm "fw", false, []⟩]

/-- An environment where the `lpunpack` probes for both `system` (the
empty slot suffix) and `system_a` succeed, each producing its image. -/
def envSuperBothSlots : Env :=
  { envNone with run := fun label _ fs =>
      if label == nm "system" || label == nm "system_a" then
        (true, fsWrite fs (pjoin (nm "dump") (label ++ nm ".img")) [])
      else (false, fs) }

/-- An environment where only the `lpunpack` probe for the unslotted
`system_ext` succeeds, producing its image. -/
def envSuperSystemExt : Env :=
  { envNone with run := fun label _ fs =>
      if label == nm "system_ext" then
        (true, fsWrite fs (pjoin (nm "dump") (label ++ nm ".img")) [])
      else (false, fs) }

/-- An empty dump directory. -/
def fsDumpOnly : FS := [⟨nm "dump", true, []⟩]

/-- An environment whose zip archive holds a single member that
matches no partition list, no allowlist and no pattern. -/
def envZipFoo : Env := { envNone with zipNamelist := [nm "foo.txt"] }


/-- The context returned by the concrete `extract_image` run on
`fsSystemMap`. -/
def c1CtxOut : Ctx :=
  { extract_partitions := [nm "system"],
    extra_partitions := [nm "super"],
    extra_files := [nm "payload.bin"] }

/-- The filesystem returned by the concrete `extract_image` run on
`fsSystemMap`. -/
def c1FsOut : FS :=
  [⟨nm "dump", true, []⟩,
   ⟨nm "dump/system.map", false, []⟩,
   ⟨nm "dump/system", true, []⟩]

/-- The filesystem left by the two successful `lpunpack` probes of
`envSuperBothSlots`. -/
def c6Fs1 : FS :=
  [⟨nm "dump", true, []⟩,
   ⟨nm "dump/system.img", false, []⟩,
   ⟨nm "dump/system_a.img", false, []⟩]

/-- The filesystem after a successful `sdat2img` run on
`fsSparseData`. -/
def c4Fs1 : FS :=
  [⟨nm "dump", true, []⟩,
   ⟨nm "dump/system.new.dat", false, []⟩,
   ⟨nm "dump/system.transfer.list", false, []⟩,
   ⟨nm "dump/system.img", false, []⟩]

/-- Model of `c4Fs1` after the stage's `remove_file_paths` call. -/
def c4Fs2 : FS :=
  [⟨nm "dump", true, []⟩,
   ⟨nm "dump/system.transfer.list", false, []⟩,
   ⟨nm "dump/system.img", false, []⟩]

/-- A request for `product` only. -/
def ctxProduct : Ctx := { extract_partitions := [nm "product"] }

/-- The canonical path of the sparse chunk with index-string `e` of
output file `name` inside directory `dir`. -/
def chunkPath (dir name e : Name) : Name :=
  pjoin dir (name ++ SPARSE_CHUNK_SUFFIX ++ '.' :: e)

/-! ## Lemmas: the alternate-partition map and its iteration -/

theorem alternateGet_first_component (p v : Name) (h : alternateGet p = some v) :
    v.takeWhile (· ≠ '/') = nm "system" ∨ v.takeWhile (· ≠ '/') = nm "vendor" := by
  by_cases h1 : (nm "product" : Name) = p
  · subst h1
    rw [show alternateGet (nm "product") = some (nm "system/product") from by decide] at h
    injection h with h
    subst h; left; decide
  by_cases h2 : (nm "system_ext" : Name) = p
  · subst h2
    rw [show alternateGet (nm "system_ext") = some (nm "system/system_ext") from by decide] at h
    injection h with h
    subst h; left; decide
  by_cases h3 : (nm "vendor" : Name) = p
  · subst h3
    rw [show alternateGet (nm "vendor") = some (nm "system/vendor") from by decide] at h
    injection h with h
    subst h; left; decide
  by_cases h4 : (nm "odm" : Name) = p
  · subst h4
    rw [show alternateGet (nm "odm") = some (nm "vendor/odm") from by decide] at h
    injection h with h
    subst h; right; decide
  · exfalso
    have e1 : ((nm "product" : Name) == p) = false := beq_eq_false_iff_ne.mpr h1
    have e2 : ((nm "system_ext" : Name) == p) = false := beq_eq_false_iff_ne.mpr h2
    have e3 : ((nm "vendor" : Name) == p) = false := beq_eq_false_iff_ne.mpr h3
    have e4 : ((nm "odm" : Name) == p) = false := beq_eq_false_iff_ne.mpr h4
    simp [alternateGet, ALTERNATE_PARTITION_PATH_MAP, List.find?, e1, e2, e3, e4] at h

theorem find_alternate_partitions_mem (ps found : List Name) (x : Name)
    (h : x ∈ find_alternate_partitions ps found) :
    x = nm "system" ∨ x = nm "vendor" := by
  have aux : ∀ (l acc : List Name),
      (∀ y ∈ acc, y = nm "system" ∨ y = nm "vendor") →
      ∀ y ∈ l.foldl (fun new_extract_partitions partition =>
        if partition ∈ found then new_extract_partitions
        else
          match alternateGet partition with
          | none => new_extract_partitions
          | some alternate_partition_path =>
            let alternate_partition := alternate_partition_path.takeWhile (· ≠ '/')
            if alternate_partition ∈ found ∨ alternate_partition ∈ new_extract_partitions
            then new_extract_partitions
            else new_extract_partitions ++ [alternate_partition]) acc,
        y = nm "system" ∨ y = nm "vendor" := by
    intro l
    induction l with
    | nil => intro acc hacc y hy; exact hacc y hy
    | cons p t ih =>
      intro acc hacc y hy
      rw [List.foldl_cons] at hy
      refine ih _ ?_ y hy
      intro z hz
      by_cases hp : p ∈ found
      · rw [if_pos hp] at hz; exact hacc z hz
      · rw [if_neg hp] at hz
        cases hv : alternateGet p with
        | none => rw [hv] at hz; exact hacc z hz
        | some v =>
          rw [hv] at hz
          simp only at hz
          by_cases hm : v.takeWhile (· ≠ '/') ∈ found ∨ v.takeWhile (· ≠ '/') ∈ acc
          · rw [if_pos hm] at hz; exact hacc z hz
          · rw [if_neg hm] at hz
            rcases List.mem_append.mp hz with hz | hz
            · exact hacc z hz
            · rw [List.mem_singleton.mp hz]
              exact alternateGet_first_component p v hv
  exact aux ps [] (by simp) x h

theorem find_alternate_partitions_mem_of_sv (ps found : List Name)
    (hps : ∀ p ∈ ps, p = nm "system" ∨ p = nm "vendor") :
    ∀ x ∈ find_alternate_partitions ps found, x = nm "system" := by
  have aux : ∀ (l acc : List Name),
      (∀ p ∈ l, p = nm "system" ∨ p = nm "vendor") →
      (∀ y ∈ acc, y = nm "system") →
      ∀ y ∈ l.foldl (fun new_extract_partitions partition =>
        if partition ∈ found then new_extract_partitions
        else
          match alternateGet partition with
          | none => new_extract_partitions
          | some alternate_partition_path =>
            let alternate_partition := alternate_partition_path.takeWhile (· ≠ '/')
            if alternate_partition ∈ found ∨ alternate_partition ∈ new_extract_partitions
            then new_extract_partitions
            else new_extract_partitions ++ [alternate_partition]) acc,
        y = nm "system" := by
    intro l
    induction l with
    | nil => intro acc _ hacc y hy; exact hacc y hy
    | cons p t ih =>
      intro acc hl hacc y hy
      rw [List.foldl_cons] at hy
      refine ih _ (fun q hq => hl q (List.mem_cons_of_mem _ hq)) ?_ y hy
      intro z hz
      by_cases hp : p ∈ found
      · rw [if_pos hp] at hz; exact hacc z hz
      · rw [if_neg hp] at hz
        rcases hl p (List.mem_cons_self p t) with hps' | hps'
        · rw [hps', show alternateGet (nm "system") = none from by decide] at hz
          exact hacc z hz
        · rw [hps', show alternateGet (nm "vendor") = some (nm "system/vendor") from by decide] at hz
          simp only at hz
          by_cases hm : (nm "system/vendor" : Name).takeWhile (· ≠ '/') ∈ found ∨
              (nm "system/vendor" : Name).takeWhile (· ≠ '/') ∈ acc
          · rw [if_pos hm] at hz; exact hacc z hz
          · rw [if_neg hm] at hz
            rcases List.mem_append.mp hz with hz | hz
            · exact hacc z hz
            · rw [List.mem_singleton.mp hz]; decide
  exact aux ps [] hps (by simp)

theorem find_alternate_partitions_eq_nil (ps found : List Name)
    (hps : ∀ p ∈ ps, p = nm "system") :
    find_alternate_partitions ps found = [] := by
  have aux : ∀ (l acc : List Name),
      (∀ p ∈ l, p = nm "system") →
      l.foldl (fun new_extract_partitions partition =>
        if partition ∈ found then new_extract_partitions
        else
          match alternateGet partition with
          | none => new_extract_partitions
          | some alternate_partition_path =>
            let alternate_partition := alternate_partition_path.takeWhile (· ≠ '/')
            if alternate_partition ∈ found ∨ alternate_partition ∈ new_extract_partitions
            then new_extract_partitions
            else new_extract_partitions ++ [alternate_partition]) acc = acc := by
    intro l
    induction l with
    | nil => intro acc _; rfl
    | cons p t ih =>
      intro acc hl
      rw [List.foldl_cons]
      have hp : p = nm "system" := hl p (List.mem_cons_self p t)
      subst hp
      have hstep : (if (nm "system" : Name) ∈ found then acc
          else
            match alternateGet (nm "system") with
            | none => acc
            | some alternate_partition_path =>
              let alternate_partition := alternate_partition_path.takeWhile (· ≠ '/')
              if alternate_partition ∈ found ∨ alternate_partition ∈ acc
              then acc
              else acc ++ [alternate_partition]) = acc := by
        rw [show alternateGet (nm "system") = none from by decide]
        by_cases hm : (nm "system" : Name) ∈ found
        · rw [if_pos hm]
        · rw [if_neg hm]
      rw [hstep]
      exact ih acc (fun q hq => hl q (List.mem_cons_of_mem _ hq))
  exact aux ps [] hps

/-- C8: Every find-alternates iteration loop terminates: for every
finite initial partition list and any sequence of found-partition
sets, three applications of `find_alternate_partitions` already reach
the empty list (3 is below `|PARTITION_SET|` = 5, the default
partition set, so the loop runs at most `|PARTITION_SET|` iterations);
this bounds the loops of `filter_files`, `extract_payload_bin` and
`extract_super_img`. -/
theorem claim_C8 (ps f0 f1 f2 : List Name) :
    find_alternate_partitions
      (find_alternate_partitions (find_alternate_partitions ps f0) f1) f2 = [] := by
  apply find_alternate_partitions_eq_nil
  apply find_alternate_partitions_mem_of_sv
  exact fun p hp => find_alternate_partitions_mem ps f0 p hp

/-! ## Fuel 4 is exact for the alternate-discovery loops -/

theorem filterFilesLoop_succ (rm : Name → Name → Bool) (n : Nat)
    (ps names : List Name) (fns : List (Name × List Nat))
    (paths found acc : List Name) :
    filterFilesLoop rm (n + 1) ps names fns paths found acc =
      if ps = [] then (acc, found)
      else
        let r := filter_files_once ps names fns rm paths found
        filterFilesLoop rm n (find_alternate_partitions ps r.2) [] [] paths
          r.2 (acc ++ r.1) := rfl

/-- Fuel stability at depth 1: when all wanted names are `system`,
one more pass empties the wanted set. -/
theorem filterFilesLoop_stable_s (rm : Name → Name → Bool) (k : Nat)
    (ps : List Name) (hps : ∀ x ∈ ps, x = nm "system")
    (paths found acc : List Name) :
    filterFilesLoop rm (k + 2) ps [] [] paths found acc =
      filterFilesLoop rm 2 ps [] [] paths found acc := by
  conv_lhs => rw [show k + 2 = (k + 1) + 1 from rfl, filterFilesLoop_succ]
  conv_rhs => rw [show (2 : Nat) = 1 + 1 from rfl, filterFilesLoop_succ]
  by_cases h0 : ps = []
  · simp [h0]
  simp only [h0, if_false]
  have h1 : find_alternate_partitions ps
      (filter_files_once ps [] [] rm paths found).2 = [] :=
    find_alternate_partitions_eq_nil _ _ hps
  rw [h1]
  conv_lhs => rw [show k + 1 = k + 0 + 1 from rfl, filterFilesLoop_succ]
  conv_rhs => rw [show (1 : Nat) = 0 + 1 from rfl, filterFilesLoop_succ]
  simp

/-- Fuel stability at depth 2: when all wanted names are `system` or
`vendor`, two more passes empty the wanted set. -/
theorem filterFilesLoop_stable_sv (rm : Name → Name → Bool) (k : Nat)
    (ps : List Name) (hps : ∀ x ∈ ps, x = nm "system" ∨ x = nm "vendor")
    (paths found acc : List Name) :
    filterFilesLoop rm (k + 3) ps [] [] paths found acc =
      filterFilesLoop rm 3 ps [] [] paths found acc := by
  conv_lhs => rw [show k + 3 = (k + 2) + 1 from rfl, filterFilesLoop_succ]
  conv_rhs => rw [show (3 : Nat) = 2 + 1 from rfl, filterFilesLoop_succ]
  by_cases h0 : ps = []
  · simp [h0]
  simp only [h0, if_false]
  exact filterFilesLoop_stable_s rm k _
    (find_alternate_partitions_mem_of_sv _ _ hps) paths _ _

/-- Any fuel of at least 4 computes the same result as fuel 4: the
embedded loop coincides with the unbounded `while` loop of the
source. -/
theorem filterFilesLoop_fuel_stable (rm : Name → Name → Bool) (k : Nat)
    (ps names : List Name) (fns : List (Name × List Nat))
    (paths found acc : List Name) :
    filterFilesLoop rm (k + 4) ps names fns paths found acc =
      filterFilesLoop rm 4 ps names fns paths found acc := by
  conv_lhs => rw [show k + 4 = (k + 3) + 1 from rfl, filterFilesLoop_succ]
  conv_rhs => rw [show (4 : Nat) = 3 + 1 from rfl, filterFilesLoop_succ]
  by_cases h0 : ps = []
  · simp [h0]
  simp only [h0, if_false]
  exact filterFilesLoop_stable_sv rm k _
    (fun x hx => find_alternate_partitions_mem _ _ x hx) paths _ _

theorem extractPayloadBinLoop_succ (env : Env) (fp od : Name) (n : Nat)
    (ps : List Name) (fs : FS) :
    extractPayloadBinLoop env fp od (n + 1) ps fs =
      if ps = [] then .ok fs
      else (extract_payload_bin_once env ps fp od fs).bind (fun r =>
        extractPayloadBinLoop env fp od n
          (find_alternate_partitions ps r.1) r.2) := rfl

theorem extractPayloadBinLoop_stable_s (env : Env) (fp od : Name) (k : Nat)
    (ps : List Name) (hps : ∀ x ∈ ps, x = nm "system") (fs : FS) :
    extractPayloadBinLoop env fp od (k + 2) ps fs =
      extractPayloadBinLoop env fp od 2 ps fs := by
  conv_lhs => rw [show k + 2 = (k + 1) + 1 from rfl, extractPayloadBinLoop_succ]
  conv_rhs => rw [show (2 : Nat) = 1 + 1 from rfl, extractPayloadBinLoop_succ]
  by_cases h0 : ps = []
  · simp [h0]
  simp only [h0, if_false]
  cases hr : extract_payload_bin_once env ps fp od fs with
  | error e => rfl
  | ok r =>
    simp only [Except.bind]
    rw [find_alternate_partitions_eq_nil _ _ hps]
    conv_lhs => rw [show k + 1 = k + 0 + 1 from rfl, extractPayloadBinLoop_succ]
    conv_rhs => rw [show (1 : Nat) = 0 + 1 from rfl, extractPayloadBinLoop_succ]
    simp

theorem extractPayloadBinLoop_stable_sv (env : Env) (fp od : Name) (k : Nat)
    (ps : List Name) (hps : ∀ x ∈ ps, x = nm "system" ∨ x = nm "vendor")
    (fs : FS) :
    extractPayloadBinLoop env fp od (k + 3) ps fs =
      extractPayloadBinLoop env fp od 3 ps fs := by
  conv_lhs => rw [show k + 3 = (k + 2) + 1 from rfl, extractPayloadBinLoop_succ]
  conv_rhs => rw [show (3 : Nat) = 2 + 1 from rfl, extractPayloadBinLoop_succ]
  by_cases h0 : ps = []
  · simp [h0]
  simp only [h0, if_false]
  cases hr : extract_payload_bin_once env ps fp od fs with
  | error e => rfl
  | ok r =>
    simp only [Except.bind]
    exact extractPayloadBinLoop_stable_s env fp od k _
      (find_alternate_partitions_mem_of_sv _ _ hps) r.2

/-- Any fuel of at least 4 computes the same payload-extraction loop
result as fuel 4. -/
theorem extractPayloadBinLoop_fuel_stable (env : Env) (fp od : Name) (k : Nat)
    (ps : List Name) (fs : FS) :
    extractPayloadBinLoop env fp od (k + 4) ps fs =
      extractPayloadBinLoop env fp od 4 ps fs := by
  conv_lhs => rw [show k + 4 = (k + 3) + 1 from rfl, extractPayloadBinLoop_succ]
  conv_rhs => rw [show (4 : Nat) = 3 + 1 from rfl, extractPayloadBinLoop_succ]
  by_cases h0 : ps = []
  · simp [h0]
  simp only [h0, if_false]
  cases hr : extract_payload_bin_once env ps fp od fs with
  | error e => rfl
  | ok r =>
    simp only [Except.bind]
    exact extractPayloadBinLoop_stable_sv env fp od k _
      (fun x hx => find_alternate_partitions_mem _ _ x hx) r.2

theorem extractSuperImgLoop_succ (env : Env) (fp od : Name) (n : Nat)
    (ps : List Name) (fs : FS) :
    extractSuperImgLoop env fp od (n + 1) ps fs =
      if ps = [] then .ok fs
      else (extract_super_img_once env ps fp od fs).bind (fun r =>
        extractSuperImgLoop env fp od n
          (find_alternate_partitions ps r.1) r.2) := rfl

theorem extractSuperImgLoop_stable_s (env : Env) (fp od : Name) (k : Nat)
    (ps : List Name) (hps : ∀ x ∈ ps, x = nm "system") (fs : FS) :
    extractSuperImgLoop env fp od (k + 2) ps fs =
      extractSuperImgLoop env fp od 2 ps fs := by
  conv_lhs => rw [show k + 2 = (k + 1) + 1 from rfl, extractSuperImgLoop_succ]
  conv_rhs => rw [show (2 : Nat) = 1 + 1 from rfl, extractSuperImgLoop_succ]
  by_cases h0 : ps = []
  · simp [h0]
  simp only [h0, if_false]
  cases hr : extract_super_img_once env ps fp od fs with
  | error e => rfl
  | ok r =>
    simp only [Except.bind]
    rw [find_alternate_partitions_eq_nil _ _ hps]
    conv_lhs => rw [show k + 1 = k + 0 + 1 from rfl, extractSuperImgLoop_succ]
    conv_rhs => rw [show (1 : Nat) = 0 + 1 from rfl, extractSuperImgLoop_succ]
    simp

theorem extractSuperImgLoop_stable_sv (env : Env) (fp od : Name) (k : Nat)
    (ps : List Name) (hps : ∀ x ∈ ps, x = nm "system" ∨ x = nm "vendor")
    (fs : FS) :
    extractSuperImgLoop env fp od (k + 3) ps fs =
      extractSuperImgLoop env fp od 3 ps fs := by
  conv_lhs => rw [show k + 3 = (k + 2) + 1 from rfl, extractSuperImgLoop_succ]
  conv_rhs => rw [show (3 : Nat) = 2 + 1 from rfl, extractSuperImgLoop_succ]
  by_cases h0 : ps = []
  · simp [h0]
  simp only [h0, if_false]
  cases hr : extract_super_img_once env ps fp od fs with
  | error e => rfl
  | ok r =>
    simp only [Except.bind]
    exact extractSuperImgLoop_stable_s env fp od k _
      (find_alternate_partitions_mem_of_sv _ _ hps) r.2

/-- Any fuel of at least 4 computes the same super-image loop result
as fuel 4. -/
theorem extractSuperImgLoop_fuel_stable (env : Env) (fp od : Name) (k : Nat)
    (ps : List Name) (fs : FS) :
    extractSuperImgLoop env fp od (k + 4) ps fs =
      extractSuperImgLoop env fp od 4 ps fs := by
  conv_lhs => rw [show k + 4 = (k + 3) + 1 from rfl, extractSuperImgLoop_succ]
  conv_rhs => rw [show (4 : Nat) = 3 + 1 from rfl, extractSuperImgLoop_succ]
  by_cases h0 : ps = []
  · simp [h0]
  simp only [h0, if_false]
  cases hr : extract_super_img_once env ps fp od fs with
  | error e => rfl
  | ok r =>
    simp only [Except.bind]
    exact extractSuperImgLoop_stable_sv env fp od k _
      (fun x hx => find_alternate_partitions_mem _ _ x hx) r.2

/-! ## Lemmas: filesystem primitives and the stub loop -/

theorem fsFind_append_of_some (fs l : FS) (p : Name) (e : Entry)
    (h : fsFind fs p = some e) : fsFind (fs ++ l) p = some e := by
  unfold fsFind at h ⊢
  rw [List.find?_append, h, Option.or_some]

theorem fsIsDir_append (fs l : FS) (p : Name) (h : fsIsDir fs p = true) :
    fsIsDir (fs ++ l) p = true := by
  unfold fsIsDir at h ⊢
  cases hf : fsFind fs p with
  | none => rw [hf] at h; cases h
  | some e => rw [fsFind_append_of_some fs l p e hf]; rw [hf] at h; exact h

theorem fsExists_append (fs l : FS) (p : Name) (h : fsExists fs p = true) :
    fsExists (fs ++ l) p = true := by
  unfold fsExists at h ⊢
  cases hf : fsFind fs p with
  | none => rw [hf] at h; cases h
  | some e => rw [fsFind_append_of_some fs l p e hf]; rfl

theorem fsMkdir_ok (fs : FS) (p : Name) (fs' : FS)
    (h : fsMkdir fs p = .ok fs') :
    fs' = fs ++ [⟨p, true, []⟩] ∧ fsExists fs p = false := by
  unfold fsMkdir at h
  by_cases he : fsExists fs p = true
  · rw [if_pos he] at h; cases h
  · rw [if_neg he] at h
    injection h with h
    exact ⟨h.symm, by simpa using he⟩

theorem fsMkdir_ok_isDir (fs : FS) (p : Name) (fs' : FS)
    (h : fsMkdir fs p = .ok fs') : fsIsDir fs' p = true := by
  obtain ⟨rfl, hne⟩ := fsMkdir_ok fs p fs' h
  have hnone : fsFind fs p = none := by
    unfold fsExists at hne
    cases hf : fsFind fs p with
    | none => rfl
    | some e => rw [hf] at hne; cases hne
  unfold fsIsDir fsFind
  unfold fsFind at hnone
  rw [List.find?_append, hnone]
  simp [List.find?]

theorem stubPartitionDirs_preserve (d : Name) (ps : List Name) :
    ∀ (fs fs' : FS) (p : Name), stubPartitionDirs d ps fs = .ok fs' →
      fsIsDir fs p = true → fsIsDir fs' p = true := by
  induction ps with
  | nil =>
    intro fs fs' p h hp
    injection h with h
    rw [← h]; exact hp
  | cons q t ih =>
    intro fs fs' p h hp
    unfold stubPartitionDirs at h
    by_cases hq : fsIsDir fs (pjoin d q) = true
    · rw [if_pos hq] at h; exact ih fs fs' p h hp
    · rw [if_neg hq] at h
      cases hm : fsMkdir fs (pjoin d q) with
      | error e => rw [hm] at h; cases h
      | ok fs1 =>
        rw [hm] at h
        have h' : stubPartitionDirs d t fs1 = .ok fs' := h
        obtain ⟨rfl, _⟩ := fsMkdir_ok _ _ _ hm
        exact ih _ _ p h' (fsIsDir_append _ _ _ hp)

theorem stubPartitionDirs_ensure (d : Name) (ps : List Name) :
    ∀ (fs fs' : FS), stubPartitionDirs d ps fs = .ok fs' →
      ∀ p ∈ ps, fsIsDir fs' (pjoin d p) = true := by
  induction ps with
  | nil => intro fs fs' _ p hp; cases hp
  | cons q t ih =>
    intro fs fs' h p hp
    unfold stubPartitionDirs at h
    by_cases hq : fsIsDir fs (pjoin d q) = true
    · rw [if_pos hq] at h
      rcases List.mem_cons.mp hp with rfl | hp'
      · exact stubPartitionDirs_preserve d t fs fs' _ h hq
      · exact ih fs fs' h p hp'
    · rw [if_neg hq] at h
      cases hm : fsMkdir fs (pjoin d q) with
      | error e => rw [hm] at h; cases h
      | ok fs1 =>
        rw [hm] at h
        have h' : stubPartitionDirs d t fs1 = .ok fs' := h
        rcases List.mem_cons.mp hp with rfl | hp'
        · exact stubPartitionDirs_preserve d t fs1 fs' _ h'
            (fsMkdir_ok_isDir _ _ _ hm)
        · exact ih fs1 fs' h' p hp'

/-- C1 (amended): when `extract_image` returns successfully, every
partition in the context's `extract_partitions` **as refined by
`update_extract_partitions` during the run** (the list the returned
context carries) has a directory inside `dump_dir`; requested
partitions for which no artefact was found in the dump directory are
dropped by the refinement and are not guaranteed a directory. -/
theorem claim_C1_amended (env : Env) (source : Name) (ctx : Ctx)
    (dump_dir : Name) (fs : FS) (ctx' : Ctx) (fs' : FS)
    (h : extract_image env source ctx dump_dir fs = .ok (ctx', fs')) :
    ∀ p ∈ ctx'.extract_partitions, fsIsDir fs' (pjoin dump_dir p) = true := by
  unfold extract_image at h
  cases hpre : extract_image_pre env source ctx dump_dir fs with
  | error e =>
    rw [hpre] at h
    have h2 : (Except.error e : Except Err (Ctx × FS)) = .ok (ctx', fs') := h
    cases h2
  | ok r =>
    rw [hpre] at h
    have h2 : (stubPartitionDirs dump_dir r.1.extract_partitions r.2).bind
        (fun fs => Except.ok (r.1, fs)) = .ok (ctx', fs') := h
    cases hstub : stubPartitionDirs dump_dir r.1.extract_partitions r.2 with
    | error e =>
      rw [hstub] at h2
      have h3 : (Except.error e : Except Err (Ctx × FS)) = .ok (ctx', fs') := h2
      cases h3
    | ok fsf =>
      rw [hstub] at h2
      have h3 : (Except.ok (r.1, fsf) : Except Err (Ctx × FS)) = .ok (ctx', fs') := h2
      injection h3 with h3
      have hctx : ctx' = r.1 := (congrArg Prod.fst h3).symm
      have hfs : fs' = fsf := (congrArg Prod.snd h3).symm
      subst hctx; subst hfs
      exact stubPartitionDirs_ensure dump_dir r.1.extract_partitions _ _ hstub

/-- C1 counterexample: a source directory whose only artefact belongs
to `system` while both `system` and `vendor` were requested:
`extract_image` returns successfully but creates no `dump/vendor`
directory, not even an empty stub, because `update_extract_partitions`
dropped `vendor` before the stub loop ran. -/
theorem claim_C1_counterexample :
    ∃ ctx' fs',
      extract_image envNone (nm "dump") ctxSystemVendor (nm "dump") fsSystemMap =
        .ok (ctx', fs') ∧
      nm "vendor" ∈ ctxSystemVendor.extract_partitions ∧
      fsIsDir fs' (pjoin (nm "dump") (nm "vendor")) = false := by
  refine ⟨_, _, rfl, ?_, ?_⟩ <;> decide



/-- C1 witness: the amended theorem applied to the concrete run above;
the surviving partition `system` does get its directory. -/
theorem claim_C1_witness :
    fsIsDir c1FsOut (pjoin (nm "dump") (nm "system")) = true :=
  claim_C1_amended envNone (nm "dump") ctxSystemVendor (nm "dump") fsSystemMap
    c1CtxOut c1FsOut rfl (nm "system") (by decide)

/-- C5 (amended): when the source is a file and the extension-stripped
sibling path exists but is not a directory, acquiring the dump
directory fails with the unexpected-file-type `ValueError` **only when
`keep_dump` is true**; with `keep_dump = false` the sibling is never
inspected and a temporary directory is yielded. -/
theorem claim_C5_amended (fs : FS) (source : Name) (ctx : Ctx)
    (hkeep : ctx.keep_dump = true)
    (hfile : fsIsFile fs source = true)
    (hsib : fsExists fs (splitext source).1 = true)
    (hsibdir : fsIsDir fs (splitext source).1 = false) :
    get_dump_dir fs source ctx = .error .valueError := by
  have hex : fsExists fs source = true := by
    unfold fsIsFile at hfile
    unfold fsExists
    cases hf : fsFind fs source with
    | none => rw [hf] at hfile; cases hfile
    | some e => rfl
  have hnd : fsIsDir fs source = false := by
    unfold fsIsFile at hfile
    unfold fsIsDir
    cases hf : fsFind fs source with
    | none => rfl
    | some e =>
      rw [hf] at hfile
      simp only [Bool.not_eq_true'] at hfile
      exact hfile
  unfold get_dump_dir
  rw [hex, hnd, hkeep]
  simp only [Bool.not_true, Bool.false_eq_true, if_false, if_true]
  rw [hsibdir, hsib]
  simp

/-- C5 counterexample: with `keep_dump = false`, a file source whose
extension-stripped sibling exists as a regular file does **not** fail;
a temporary dump directory is yielded and the sibling is ignored. -/
theorem claim_C5_counterexample :
    get_dump_dir fsSiblingFile (nm "fw.zip") { keep_dump := false } =
      .ok .tempDir ∧
    fsIsFile fsSiblingFile (nm "fw.zip") = true ∧
    (splitext (nm "fw.zip")).1 = nm "fw" ∧
    fsExists fsSiblingFile (nm "fw") = true ∧
    fsIsDir fsSiblingFile (nm "fw") = false := by
  refine ⟨rfl, ?_, ?_, ?_, ?_⟩ <;> decide

/-- C5 witness: the amended theorem at the concrete world above with
`keep_dump = true`. -/
theorem claim_C5_witness :
    get_dump_dir fsSiblingFile (nm "fw.zip") { keep_dump := true } =
      .error .valueError :=
  claim_C5_amended fsSiblingFile (nm "fw.zip") { keep_dump := true }
    rfl (by decide) (by decide) (by decide)

/-- C9: for a zip source none of whose members pass the filter (here a
single member `foo.txt` against a request for `system`, with no
allowlists, no patterns and `extract_all = false`), `extract_zip`
raises `ValueError` — `ProcessPoolExecutor` rejects a worker count of
zero — instead of completing with an empty dump directory. -/
theorem claim_C9 :
    filter_extract_file_paths ctxSystem envZipFoo.rmatch envZipFoo.zipNamelist
        = [] ∧
    extract_zip envZipFoo (nm "fw.zip") ctxSystem (nm "dump") fsDumpOnly =
      .error .valueError := by
  exact ⟨by decide, rfl⟩

theorem unslot_partition_slotted (s : Name) (c : Char) (hc : c ≠ '_') :
    unslot_partition (s ++ ['_', c]) = s := by
  unfold unslot_partition
  rw [show (s ++ ['_', c]).reverse = c :: '_' :: s.reverse by simp]
  simp only [List.takeWhile_cons]
  simp [hc]

theorem unslot_partition_no_underscore (s : Name) (h : '_' ∉ s) :
    unslot_partition s = s := by
  unfold unslot_partition
  have ht : s.reverse.takeWhile (· ≠ '_') = s.reverse := by
    rw [List.takeWhile_eq_self_iff]
    intro a ha
    have : a ∈ s := List.mem_reverse.mp ha
    simp only [ne_eq, decide_eq_true_eq]
    intro heq
    rw [heq] at this
    exact h this
  simp only [ht, List.drop_length]

/-- C3 counterexample: `system_ext` carries no `_a`/`_b` slot suffix,
yet `unslot_partition` does not return it unchanged — `rsplit` cuts at
the last underscore whatever follows it. -/
theorem claim_C3_counterexample :
    unslot_partition (nm "system_ext") = nm "system" ∧
    nm "system_ext" ≠ nm "system" ∧
    endsWith (nm "system_ext") (nm "_a") = false ∧
    endsWith (nm "system_ext") (nm "_b") = false := by decide

/-- C3 (amended): `unslot_partition` drops everything after the
**last underscore**: appended `_a`/`_b` slot suffixes are stripped and
underscore-free names are returned unchanged, but a name containing an
underscore loses its final segment even without a slot suffix; during
super.img extraction an image is renamed to the unslot form whenever
that form differs from its probe label — including the non-slotted
`system_ext` probed at the empty slot, whose image is renamed to
`system.img`. -/
theorem claim_C3_amended :
    (∀ s : Name, unslot_partition (s ++ nm "_a") = s) ∧
    (∀ s : Name, unslot_partition (s ++ nm "_b") = s) ∧
    (∀ s : Name, '_' ∉ s → unslot_partition s = s) ∧
    (∃ r, extract_super_img_once envSuperSystemExt [nm "system_ext"]
        (nm "dump/super.img") (nm "dump") fsDumpOnly = .ok r ∧
      r.1 = [nm "system"] ∧
      fsIsFile r.2 (nm "dump/system.img") = true ∧
      fsExists r.2 (nm "dump/system_ext.img") = false) := by
  refine ⟨fun s => unslot_partition_slotted s 'a' (by decide),
    fun s => unslot_partition_slotted s 'b' (by decide),
    unslot_partition_no_underscore,
    ⟨_, rfl, ?_, ?_, ?_⟩⟩ <;> decide

/-- C3 witness: the amended theorem instantiated at a slotted name and
at an underscore-free name. -/
theorem claim_C3_witness :
    unslot_partition (nm "vendor" ++ nm "_a") = nm "vendor" ∧
    unslot_partition (nm "boot") = nm "boot" :=
  ⟨claim_C3_amended.1 (nm "vendor"), claim_C3_amended.2.2.1 (nm "boot") (by decide)⟩

/-- The `os.mkdir` fold shared by `extract_erofs` and `extract_ext4`
(paragraphs extract.py:546-551 and 569-574) raises `FileExistsError`
as soon as some image's partition directory already exists. -/
theorem mkdirFoldM_error (mk : Name → Name × List Name) (out : Name) :
    ∀ (fps : List Name) (procs : List (Name × List Name)) (fs : FS),
      (∃ fp ∈ fps, fsExists fs (pjoin out (splitext (basename fp)).1) = true) →
      fps.foldlM (fun (acc : List (Name × List Name) × FS) file_path =>
          (fsMkdir acc.2 (pjoin out (splitext (basename file_path)).1)).bind
            (fun fs2 => Except.ok (acc.1 ++ [mk file_path], fs2))) (procs, fs) =
        .error .fileExistsError := by
  intro fps
  induction fps with
  | nil =>
    intro procs fs h
    rcases h with ⟨fp, hfp, _⟩
    cases hfp
  | cons q t ih =>
    intro procs fs h
    rw [List.foldlM_cons]
    by_cases hq : fsExists fs (pjoin out (splitext (basename q)).1) = true
    · have hmk : fsMkdir fs (pjoin out (splitext (basename q)).1) =
          .error .fileExistsError := by
        unfold fsMkdir; rw [if_pos hq]
      show ((fsMkdir fs (pjoin out (splitext (basename q)).1)).bind
          (fun fs2 => Except.ok (procs ++ [mk q], fs2))).bind _ =
        Except.error Err.fileExistsError
      rw [hmk]
      rfl
    · have hmk : fsMkdir fs (pjoin out (splitext (basename q)).1) =
          .ok (fs ++ [⟨pjoin out (splitext (basename q)).1, true, []⟩]) := by
        unfold fsMkdir
        rw [if_neg hq]
      show ((fsMkdir fs (pjoin out (splitext (basename q)).1)).bind
          (fun fs2 => Except.ok (procs ++ [mk q], fs2))).bind _ =
        Except.error Err.fileExistsError
      rw [hmk]
      show t.foldlM _ (procs ++ [mk q], fs ++ [⟨_, true, []⟩]) =
        Except.error Err.fileExistsError
      apply ih
      rcases h with ⟨fp, hfp, hex⟩
      rcases List.mem_cons.mp hfp with rfl | hfp'
      · exact absurd hex hq
      · exact ⟨fp, hfp', fsExists_append _ _ _ hex⟩

/-- The same fold raises `FileExistsError` when two images map to the
same partition name: the first `os.mkdir` creates the directory the
second one trips over. -/
theorem mkdirFoldM_error_dup (mk : Name → Name × List Name) (out : Name) :
    ∀ (fps : List Name) (procs : List (Name × List Name)) (fs : FS),
      ¬ (fps.map (fun fp => (splitext (basename fp)).1)).Nodup →
      fps.foldlM (fun (acc : List (Name × List Name) × FS) file_path =>
          (fsMkdir acc.2 (pjoin out (splitext (basename file_path)).1)).bind
            (fun fs2 => Except.ok (acc.1 ++ [mk file_path], fs2))) (procs, fs) =
        .error .fileExistsError := by
  intro fps
  induction fps with
  | nil => intro procs fs h; exact absurd List.nodup_nil h
  | cons q t ih =>
    intro procs fs h
    rw [List.foldlM_cons]
    by_cases hq : fsExists fs (pjoin out (splitext (basename q)).1) = true
    · have hmk : fsMkdir fs (pjoin out (splitext (basename q)).1) =
          .error .fileExistsError := by
        unfold fsMkdir; rw [if_pos hq]
      show ((fsMkdir fs (pjoin out (splitext (basename q)).1)).bind
          (fun fs2 => Except.ok (procs ++ [mk q], fs2))).bind _ =
        Except.error Err.fileExistsError
      rw [hmk]
      rfl
    · have hmk : fsMkdir fs (pjoin out (splitext (basename q)).1) =
          .ok (fs ++ [⟨pjoin out (splitext (basename q)).1, true, []⟩]) := by
        unfold fsMkdir
        rw [if_neg hq]
      show ((fsMkdir fs (pjoin out (splitext (basename q)).1)).bind
          (fun fs2 => Except.ok (procs ++ [mk q], fs2))).bind _ =
        Except.error Err.fileExistsError
      rw [hmk]
      show t.foldlM _ (procs ++ [mk q], fs ++ [⟨_, true, []⟩]) =
        Except.error Err.fileExistsError
      rw [List.map_cons, List.nodup_cons] at h
      push_neg at h
      by_cases hdup : (splitext (basename q)).1 ∈
          t.map (fun fp => (splitext (basename fp)).1)
      · rcases List.mem_map.mp hdup with ⟨fp, hfp, hstem⟩
        apply mkdirFoldM_error
        refine ⟨fp, hfp, ?_⟩
        rw [show pjoin out (splitext (basename fp)).1 =
            pjoin out (splitext (basename q)).1 from by rw [hstem]]
        unfold fsExists fsFind
        rw [List.find?_append]
        cases hlf : (fs.find? (fun e => e.path == pjoin out (splitext (basename q)).1)) with
        | some e => rfl
        | none => simp [List.find?]
      · exact ih _ _ (fun hn => (h hdup) hn)

/-- C10: `extract_erofs` and `extract_ext4` unconditionally `os.mkdir`
`dump_dir/<partition>` before dispatching any decoder; whenever some
image's partition directory already exists, or two images map to the
same partition name, they raise `FileExistsError` instead of
extracting into the existing directory. -/
theorem claim_C10 (env : Env) (file_paths : List Name) (output_path : Name)
    (fs : FS)
    (h : (∃ fp ∈ file_paths,
        fsExists fs (pjoin output_path (splitext (basename fp)).1) = true) ∨
      ¬ (file_paths.map (fun fp => (splitext (basename fp)).1)).Nodup) :
    extract_erofs env file_paths output_path fs = .error .fileExistsError ∧
    extract_ext4 env file_paths output_path fs = .error .fileExistsError := by
  have hfold1 : file_paths.foldlM
      (fun (acc : List (Name × List Name) × FS) file_path =>
        (fsMkdir acc.2 (pjoin output_path (splitext (basename file_path)).1)).bind
          (fun fs2 => Except.ok (acc.1 ++ [(basename file_path,
            [nm "fsck.erofs",
             nm "--extract=" ++ pjoin output_path (splitext (basename file_path)).1,
             file_path])], fs2))) ([], fs) = .error .fileExistsError := by
    rcases h with h' | h'
    · exact mkdirFoldM_error _ output_path file_paths [] fs h'
    · exact mkdirFoldM_error_dup _ output_path file_paths [] fs h'
  have hfold2 : file_paths.foldlM
      (fun (acc : List (Name × List Name) × FS) file_path =>
        (fsMkdir acc.2 (pjoin output_path (splitext (basename file_path)).1)).bind
          (fun fs2 => Except.ok (acc.1 ++ [(basename file_path,
            [nm "debugfs", nm "-R",
             nm "rdump / " ++ pjoin output_path (splitext (basename file_path)).1,
             file_path])], fs2))) ([], fs) = .error .fileExistsError := by
    rcases h with h' | h'
    · exact mkdirFoldM_error _ output_path file_paths [] fs h'
    · exact mkdirFoldM_error_dup _ output_path file_paths [] fs h'
  constructor
  · show (file_paths.foldlM
      (fun (acc : List (Name × List Name) × FS) file_path =>
        (fsMkdir acc.2 (pjoin output_path (splitext (basename file_path)).1)).bind
          (fun fs2 => Except.ok (acc.1 ++ [(basename file_path,
            [nm "fsck.erofs",
             nm "--extract=" ++ pjoin output_path (splitext (basename file_path)).1,
             file_path])], fs2))) ([], fs)).bind _ = Except.error Err.fileExistsError
    rw [hfold1]
    rfl
  · show (file_paths.foldlM
      (fun (acc : List (Name × List Name) × FS) file_path =>
        (fsMkdir acc.2 (pjoin output_path (splitext (basename file_path)).1)).bind
          (fun fs2 => Except.ok (acc.1 ++ [(basename file_path,
            [nm "debugfs", nm "-R",
             nm "rdump / " ++ pjoin output_path (splitext (basename file_path)).1,
             file_path])], fs2))) ([], fs)).bind _ = Except.error Err.fileExistsError
    rw [hfold2]
    rfl

/-- C10 witness: two image files mapping to the partition name
`system` make both extractors raise `FileExistsError`. -/
theorem claim_C10_witness :
    extract_erofs envNone [nm "system.img", nm "system.ext4"] (nm "dump") [] =
      .error .fileExistsError ∧
    extract_ext4 envNone [nm "system.img", nm "system.ext4"] (nm "dump") [] =
      .error .fileExistsError :=
  claim_C10 envNone [nm "system.img", nm "system.ext4"] (nm "dump") []
    (Or.inr (by decide))

/-- The rename fold of `_extract_super_img` (extract.py:471-484) can
only fail with `FileNotFoundError` (a missing image), never with
`AssertionError`. -/
theorem superRenameFold_error (od : Name) :
    ∀ (l : List Name) (acc : List Name × FS) (e : Err),
      l.foldlM (fun (acc : List Name × FS) partition_slot =>
        if (unslot_partition partition_slot == partition_slot : Bool) then
          Except.ok (acc.1 ++ [unslot_partition partition_slot], acc.2)
        else
          (fsRename acc.2 (pjoin od (partition_slot ++ nm ".img"))
            (pjoin od (unslot_partition partition_slot ++ nm ".img"))).bind
            (fun fs => Except.ok (acc.1 ++ [unslot_partition partition_slot], fs)))
        acc = .error e →
      e = .fileNotFoundError := by
  intro l
  induction l with
  | nil => intro acc e h; cases h
  | cons s t ih =>
    intro acc e h
    rw [List.foldlM_cons] at h
    by_cases hs : (unslot_partition s == s : Bool) = true
    · rw [if_pos hs] at h
      exact ih _ e h
    · rw [if_neg hs] at h
      cases hr : fsRename acc.2 (pjoin od (s ++ nm ".img"))
          (pjoin od (unslot_partition s ++ nm ".img")) with
      | error e' =>
        rw [hr] at h
        have he' : e' = .fileNotFoundError := by
          unfold fsRename at hr
          by_cases hex : fsExists acc.2 (pjoin od (s ++ nm ".img")) = true
          · rw [if_pos hex] at hr; cases hr
          · rw [if_neg hex] at hr; injection hr with hr; exact hr.symm
        have h2 : (Except.error e' : Except Err (List Name × FS)) = .error e := h
        injection h2 with h2
        rw [← h2, he']
      | ok fs2 =>
        rw [hr] at h
        exact ih _ e h

/-- C6 (amended): the duplicate-success assertion of
`_extract_super_img` fires exactly when the same probe **label**
succeeds more than once; two successes for the same partition under
different slot suffixes (for instance `system` and `system_a`) carry
distinct labels, pass the assertion, and the slotted image is renamed
over the unslotted one instead of aborting the run. -/
theorem claim_C6_amended (env : Env) (ps : List Name) (fp od : Name) (fs : FS)
    (succ : List Name) (fs1 : FS)
    (h : process_cmds_in_parallel env (superImgProcs ps fp od) false fs =
      .ok (succ, fs1)) :
    (extract_super_img_once env ps fp od fs = .error .assertionError ↔
      succ.length ≠ succ.dedup.length) := by
  have hun : extract_super_img_once env ps fp od fs =
      (process_cmds_in_parallel env (superImgProcs ps fp od) false fs).bind
        (fun r =>
          if r.1.length ≠ r.1.dedup.length then .error .assertionError
          else r.1.foldlM (fun (acc : List Name × FS) partition_slot =>
            if (unslot_partition partition_slot == partition_slot : Bool) then
              Except.ok (acc.1 ++ [unslot_partition partition_slot], acc.2)
            else
              (fsRename acc.2 (pjoin od (partition_slot ++ nm ".img"))
                (pjoin od (unslot_partition partition_slot ++ nm ".img"))).bind
                (fun fs => Except.ok (acc.1 ++ [unslot_partition partition_slot], fs)))
            ([], r.2)) := rfl
  rw [hun, h]
  show (if succ.length ≠ succ.dedup.length then Except.error Err.assertionError
      else succ.foldlM _ ([], fs1)) = .error .assertionError ↔
    succ.length ≠ succ.dedup.length
  by_cases hdup : succ.length ≠ succ.dedup.length
  · rw [if_pos hdup]
    simp [hdup]
  · rw [if_neg hdup]
    constructor
    · intro hfold
      exact absurd (superRenameFold_error od succ ([], fs1) _ hfold) (by decide)
    · intro hc
      exact absurd hc hdup

/-- C6 counterexample: when both the empty-slot and `_a` probes of the
same partition `system` succeed, the labels `system` and `system_a`
are distinct, the assertion does not fire, and the run completes with
`system` recorded twice instead of aborting. -/
theorem claim_C6_counterexample :
    ∃ fs1, process_cmds_in_parallel envSuperBothSlots
        (superImgProcs [nm "system"] (nm "dump/super.img") (nm "dump"))
        false fsDumpOnly = .ok ([nm "system", nm "system_a"], fs1) ∧
    ∃ r, extract_super_img_once envSuperBothSlots [nm "system"]
        (nm "dump/super.img") (nm "dump") fsDumpOnly = .ok r ∧
      r.1 = [nm "system", nm "system"] := by
  refine ⟨_, rfl, _, rfl, ?_⟩
  decide


/-- C6 witness: the amended theorem at the concrete both-slots run;
the distinct labels make both sides of the equivalence false. -/
theorem claim_C6_witness :
    (extract_super_img_once envSuperBothSlots [nm "system"]
        (nm "dump/super.img") (nm "dump") fsDumpOnly = .error .assertionError ↔
      ([nm "system", nm "system_a"] : List Name).length ≠
        ([nm "system", nm "system_a"] : List Name).dedup.length) :=
  claim_C6_amended envSuperBothSlots [nm "system"] (nm "dump/super.img")
    (nm "dump") fsDumpOnly [nm "system", nm "system_a"] c6Fs1 rfl

/-- On success, `remove_file_paths` deletes exactly the entries whose
paths were passed to it and leaves every other entry in place. -/
theorem remove_file_paths_ok (paths : List Name) : ∀ (fs fs' : FS),
    remove_file_paths fs paths = .ok fs' →
    fs' = fs.filter (fun e => e.path ∉ paths) := by
  induction paths with
  | nil =>
    intro fs fs' h
    injection h with h
    rw [← h]
    simp
  | cons q t ih =>
    intro fs fs' h
    unfold remove_file_paths at h
    rw [List.foldlM_cons] at h
    cases hr : fsRemove fs q with
    | error e =>
      rw [hr] at h
      have h2 : (Except.error e : Except Err FS) = .ok fs' := h
      cases h2
    | ok fs1 =>
      rw [hr] at h
      have h' : remove_file_paths fs1 t = .ok fs' := h
      have hfs1 : fs1 = fs.filter (fun e => e.path ≠ q) := by
        unfold fsRemove at hr
        by_cases hex : fsExists fs q = true
        · rw [if_pos hex] at hr; injection hr with hr; exact hr.symm
        · rw [if_neg hex] at hr; cases hr
      rw [ih fs1 fs' h', hfs1, List.filter_filter]
      apply List.filter_congr
      intro e _
      by_cases h1 : e.path = q <;> by_cases h2 : e.path ∈ t <;> simp [h1, h2]

theorem fsExists_filter_mem (fs : FS) (l : List Name) (q : Name) (hq : q ∈ l) :
    fsExists (fs.filter (fun e => e.path ∉ l)) q = false := by
  unfold fsExists fsFind
  cases hf : (fs.filter (fun e => e.path ∉ l)).find? (fun e => e.path == q) with
  | none => rfl
  | some e =>
    exfalso
    have hpq : e.path = q := by
      have := List.find?_some hf
      exact eq_of_beq this
    have hmem := List.mem_of_find?_eq_some hf
    have hpred := List.of_mem_filter hmem
    rw [hpq] at hpred
    simp at hpred
    exact hpred hq

theorem fsExists_filter_not_mem (fs : FS) (l : List Name) (q : Name)
    (hq : q ∉ l) :
    fsExists (fs.filter (fun e => e.path ∉ l)) q = fsExists fs q := by
  rw [Bool.eq_iff_iff]
  unfold fsExists fsFind
  simp only [List.find?_isSome, List.mem_filter]
  constructor
  · rintro ⟨x, ⟨hx, _⟩, hpx⟩
    exact ⟨x, hx, hpx⟩
  · rintro ⟨x, hx, hpx⟩
    refine ⟨x, ⟨hx, ?_⟩, hpx⟩
    have hpq : x.path = q := eq_of_beq hpx
    rw [hpq]
    simpa using hq

/-- C4 (amended): after a successful sparse-data merge stage followed
by the stage's `remove_file_paths` call, every processed `<p>.new.dat`
input is gone from `dump_dir`, but the sibling `<p>.transfer.list`
files are **not** deleted by the stage: any path outside the
`.new.dat` list is present afterwards iff it was present before the
removal. -/
theorem claim_C4_amended (env : Env) (fs : FS) (ps : List Name)
    (dump_dir : Name) (fs1 fs2 : FS)
    (hst : extract_sparse_data_imgs env (find_sparse_data_paths ps dump_dir fs)
      dump_dir fs = .ok fs1)
    (hrm : remove_file_paths fs1 (find_sparse_data_paths ps dump_dir fs) =
      .ok fs2) :
    (∀ q ∈ find_sparse_data_paths ps dump_dir fs, fsExists fs2 q = false) ∧
    (∀ q, q ∉ find_sparse_data_paths ps dump_dir fs →
      fsExists fs2 q = fsExists fs1 q) := by
  have h2 := remove_file_paths_ok _ fs1 fs2 hrm
  subst h2
  exact ⟨fun q hq => fsExists_filter_mem fs1 _ q hq,
    fun q hq => fsExists_filter_not_mem fs1 _ q hq⟩

/-- C4 counterexample: a complete `extract_image` run over a dump
directory holding `system.new.dat` and `system.transfer.list`, with a
succeeding `sdat2img`: the run succeeds, the `.new.dat` input is
deleted, but the sibling transfer list is still present at return. -/
theorem claim_C4_counterexample :
    ∃ ctx' fs',
      extract_image envSdat (nm "dump") ctxSystem (nm "dump") fsSparseData =
        .ok (ctx', fs') ∧
      fsExists fs' (nm "dump/system.new.dat") = false ∧
      fsIsFile fs' (nm "dump/system.transfer.list") = true := by
  refine ⟨_, _, rfl, ?_, ?_⟩ <;> decide



/-- C4 witness: the amended theorem at the concrete sparse-data stage;
the `.new.dat` file is gone, the transfer list's presence is
unchanged. -/
theorem claim_C4_witness :
    fsExists c4Fs2 (nm "dump/system.new.dat") = false ∧
    fsExists c4Fs2 (nm "dump/system.transfer.list") =
      fsExists c4Fs1 (nm "dump/system.transfer.list") :=
  ⟨(claim_C4_amended envSdat fsSparseData [nm "system"] (nm "dump")
      c4Fs1 c4Fs2 rfl rfl).1 (nm "dump/system.new.dat") (by decide),
   (claim_C4_amended envSdat fsSparseData [nm "system"] (nm "dump")
      c4Fs1 c4Fs2 rfl rfl).2 (nm "dump/system.transfer.list") (by decide)⟩

/-- Any path selected by a single `_filter_files` pass matches one of
its four selection conditions. -/
theorem filter_files_once_mem (ps names : List Name)
    (fns : List (Name × List Nat)) (rm : Name → Name → Bool)
    (paths : List Name) (found : List Name) (x : Name)
    (h : x ∈ (filter_files_once ps names fns rm paths found).1) :
    basename x ∈ ps ∨ file_name_to_partition (basename x) ∈ ps ∨
    basename x ∈ names ∨ ∃ pat ∈ fns, rm pat.1 (basename x) = true := by
  have aux : ∀ (l : List Name) (acc : List Name × List Name),
      (∀ y ∈ acc.1, basename y ∈ ps ∨ file_name_to_partition (basename y) ∈ ps ∨
        basename y ∈ names ∨ ∃ pat ∈ fns, rm pat.1 (basename y) = true) →
      ∀ y ∈ (l.foldl
        (fun (acc : List Name × List Name) file_path =>
          if basename file_path ∈ ps then
            (acc.1 ++ [file_path], setAdd acc.2 (basename file_path))
          else if file_name_to_partition (basename file_path) ∈ ps then
            (acc.1 ++ [file_path],
             setAdd acc.2 (file_name_to_partition (basename file_path)))
          else if basename file_path ∈ names then
            (acc.1 ++ [file_path], acc.2)
          else
            (acc.1 ++ (fns.filterMap (fun pat =>
              if rm pat.1 (basename file_path) then some file_path else none)),
             acc.2)) acc).1,
      basename y ∈ ps ∨ file_name_to_partition (basename y) ∈ ps ∨
        basename y ∈ names ∨ ∃ pat ∈ fns, rm pat.1 (basename y) = true := by
    intro l
    induction l with
    | nil => intro acc hacc y hy; exact hacc y hy
    | cons fp t ih =>
      intro acc hacc y hy
      rw [List.foldl_cons] at hy
      refine ih _ ?_ y hy
      intro z hz
      by_cases h1 : basename fp ∈ ps
      · rw [if_pos h1] at hz
        rcases List.mem_append.mp hz with hz | hz
        · exact hacc z hz
        · rw [List.mem_singleton.mp hz]; exact Or.inl h1
      rw [if_neg h1] at hz
      by_cases h2 : file_name_to_partition (basename fp) ∈ ps
      · rw [if_pos h2] at hz
        rcases List.mem_append.mp hz with hz | hz
        · exact hacc z hz
        · rw [List.mem_singleton.mp hz]; exact Or.inr (Or.inl h2)
      rw [if_neg h2] at hz
      by_cases h3 : basename fp ∈ names
      · rw [if_pos h3] at hz
        rcases List.mem_append.mp hz with hz | hz
        · exact hacc z hz
        · rw [List.mem_singleton.mp hz]; exact Or.inr (Or.inr (Or.inl h3))
      rw [if_neg h3] at hz
      rcases List.mem_append.mp hz with hz | hz
      · exact hacc z hz
      · rcases List.mem_filterMap.mp hz with ⟨pat, hpat, hsome⟩
        by_cases hm : rm pat.1 (basename fp) = true
        · rw [if_pos hm] at hsome
          injection hsome with hsome
          rw [← hsome]
          exact Or.inr (Or.inr (Or.inr ⟨pat, hpat, hm⟩))
        · rw [if_neg hm] at hsome
          cases hsome
  exact aux paths ([], found) (by simp) x h

/-- Soundness of the full `filter_files` loop: every selected path is
allowlisted by name, selected by a partition from the initial
partition list or from the alternate-partition targets
`{system, vendor}`, or matched by a registered pattern. -/
theorem filterFilesLoop_sound (rm : Name → Name → Bool)
    (ps0 names0 : List Name) (fns0 : List (Name × List Nat)) :
    ∀ (fuel : Nat) (ps names : List Name) (fns : List (Name × List Nat))
      (paths found acc : List Name),
      (∀ p ∈ ps, p ∈ ps0 ∨ p = nm "system" ∨ p = nm "vendor") →
      (∀ n ∈ names, n ∈ names0) →
      (∀ f ∈ fns, f ∈ fns0) →
      (∀ y ∈ acc,
        basename y ∈ names0 ∨
        basename y ∈ ps0 ∨ file_name_to_partition (basename y) ∈ ps0 ∨
        basename y ∈ [nm "system", nm "vendor"] ∨
        file_name_to_partition (basename y) ∈ [nm "system", nm "vendor"] ∨
        ∃ pat ∈ fns0, rm pat.1 (basename y) = true) →
      ∀ y ∈ (filterFilesLoop rm fuel ps names fns paths found acc).1,
        basename y ∈ names0 ∨
        basename y ∈ ps0 ∨ file_name_to_partition (basename y) ∈ ps0 ∨
        basename y ∈ [nm "system", nm "vendor"] ∨
        file_name_to_partition (basename y) ∈ [nm "system", nm "vendor"] ∨
        ∃ pat ∈ fns0, rm pat.1 (basename y) = true := by
  intro fuel
  induction fuel with
  | zero => intro ps names fns paths found acc _ _ _ hacc y hy; exact hacc y hy
  | succ n ih =>
    intro ps names fns paths found acc hps hnames hfns hacc y hy
    rw [filterFilesLoop_succ] at hy
    by_cases h0 : ps = []
    · rw [if_pos h0] at hy; exact hacc y hy
    rw [if_neg h0] at hy
    refine ih _ _ _ paths _ _ ?_ ?_ ?_ ?_ y hy
    · intro p hp
      rcases find_alternate_partitions_mem _ _ p hp with h | h
      · exact Or.inr (Or.inl h)
      · exact Or.inr (Or.inr h)
    · intro n hn; cases hn
    · intro f hf; cases hf
    · intro z hz
      rcases List.mem_append.mp hz with hz | hz
      · exact hacc z hz
      · rcases filter_files_once_mem ps names fns rm paths found z hz with
          h | h | h | h
        · rcases hps _ h with h' | h' | h'
          · exact Or.inr (Or.inl h')
          · exact Or.inr (Or.inr (Or.inr (Or.inl (by rw [h']; decide))))
          · exact Or.inr (Or.inr (Or.inr (Or.inl (by rw [h']; decide))))
        · rcases hps _ h with h' | h' | h'
          · exact Or.inr (Or.inr (Or.inl h'))
          · exact Or.inr (Or.inr (Or.inr (Or.inr (Or.inl (by rw [h']; decide)))))
          · exact Or.inr (Or.inr (Or.inr (Or.inr (Or.inl (by rw [h']; decide)))))
        · exact Or.inl (hnames _ h)
        · rcases h with ⟨pat, hpat, hm⟩
          exact Or.inr (Or.inr (Or.inr (Or.inr (Or.inr ⟨pat, hfns _ hpat, hm⟩))))


/-- C2 (amended): with `extract_all = false` and no extract hooks,
every archive member selected for writing into `dump_dir` has its name
in the file-name allowlists, or its name or partition in the combined
partition lists **or among the alternate-partition targets `system`
and `vendor`**, which the find-alternates iteration may add to the
wanted set even though they are outside
`requested ∪ firmware ∪ extra`. -/
theorem claim_C2_amended (ctx : Ctx) (rm : Name → Name → Bool)
    (paths : List Name) (x : Name)
    (hall : ctx.extract_all = false) (hfns : ctx.extract_fns = [])
    (hx : x ∈ filter_extract_file_paths ctx rm paths) :
    basename x ∈ ctx.firmware_files ++ ctx.factory_files ++ ctx.extra_files ∨
    basename x ∈
      ctx.extract_partitions ++ ctx.firmware_partitions ++ ctx.extra_partitions ∨
    file_name_to_partition (basename x) ∈
      ctx.extract_partitions ++ ctx.firmware_partitions ++ ctx.extra_partitions ∨
    basename x ∈ [nm "system", nm "vendor"] ∨
    file_name_to_partition (basename x) ∈ [nm "system", nm "vendor"] := by
  simp only [filter_extract_file_paths, hall, Bool.false_eq_true, if_false,
    filter_files, List.foldl_cons, List.foldl_nil, List.nil_append] at hx
  have hmain := filterFilesLoop_sound rm
    (ctx.extract_partitions ++ ctx.firmware_partitions ++ ctx.extra_partitions)
    (ctx.firmware_files ++ ctx.factory_files ++ ctx.extra_files)
    ctx.extract_fns 4
    (ctx.extract_partitions ++ ctx.firmware_partitions ++ ctx.extra_partitions)
    (ctx.firmware_files ++ ctx.factory_files ++ ctx.extra_files)
    ctx.extract_fns paths [] []
    (fun p hp => Or.inl hp) (fun n hn => hn) (fun f hf => hf)
    (by intro y hy; cases hy) x hx
  rcases hmain with h | h | h | h | h | h
  · exact Or.inl h
  · exact Or.inr (Or.inl h)
  · exact Or.inr (Or.inr (Or.inl h))
  · exact Or.inr (Or.inr (Or.inr (Or.inl h)))
  · exact Or.inr (Or.inr (Or.inr (Or.inr h)))
  · rcases h with ⟨pat, hpat, _⟩
    rw [hfns] at hpat
    cases hpat

/-- C2 counterexample: with only `product` requested, the member
`system.img` is selected (via the alternate-partition iteration) even
though neither its name nor its partition is in
`requested ∪ firmware ∪ extra ∪ allowlisted_files`. -/
theorem claim_C2_counterexample :
    filter_extract_file_paths ctxProduct (fun _ _ => false) [nm "system.img"] =
      [nm "system.img"] ∧
    (nm "system.img" : Name) ∉ ctxProduct.extract_partitions ++
      ctxProduct.firmware_partitions ++ ctxProduct.extra_partitions ∧
    file_name_to_partition (nm "system.img") ∉ ctxProduct.extract_partitions ++
      ctxProduct.firmware_partitions ++ ctxProduct.extra_partitions ∧
    (nm "system.img" : Name) ∉ ctxProduct.firmware_files ++
      ctxProduct.factory_files ++ ctxProduct.extra_files ∧
    ctxProduct.extract_fns = [] ∧ ctxProduct.extract_all = false := by decide

/-- C2 witness: the amended theorem at the counterexample's member;
the selected `system.img` falls under the alternate target clause. -/
theorem claim_C2_witness :
    basename (nm "system.img") ∈ ctxProduct.firmware_files ++
      ctxProduct.factory_files ++ ctxProduct.extra_files ∨
    basename (nm "system.img") ∈ ctxProduct.extract_partitions ++
      ctxProduct.firmware_partitions ++ ctxProduct.extra_partitions ∨
    file_name_to_partition (basename (nm "system.img")) ∈
      ctxProduct.extract_partitions ++ ctxProduct.firmware_partitions ++
        ctxProduct.extra_partitions ∨
    basename (nm "system.img") ∈ [nm "system", nm "vendor"] ∨
    file_name_to_partition (basename (nm "system.img")) ∈
      [nm "system", nm "vendor"] :=
  claim_C2_amended ctxProduct (fun _ _ => false) [nm "system.img"]
    (nm "system.img") rfl rfl (by decide)


theorem digit_ne_dot_slash (c : Char) (h : c.isDigit = true) :
    c ≠ '.' ∧ c ≠ '/' := by
  constructor <;> intro he <;> subst he <;> exact absurd h (by decide)

theorem basename_pjoin (d f : Name) (hf : '/' ∉ f) : basename (pjoin d f) = f := by
  unfold basename pjoin
  rw [List.reverse_append, List.reverse_cons, List.append_assoc]
  rw [List.takeWhile_append_of_pos]
  · rw [show List.takeWhile (fun x => decide (x ≠ '/')) (['/'] ++ d.reverse) = []
      from by rw [List.singleton_append, List.takeWhile_cons]; simp]
    simp
  · intro a ha
    have : a ∈ f := List.mem_reverse.mp ha
    simp only [ne_eq, decide_eq_true_eq]
    intro he
    rw [he] at this
    exact hf this

theorem splitext_sparsechunk (pre e : Name) (he1 : e ≠ [])
    (he2 : e.all (·.isDigit) = true) :
    splitext (pre ++ SPARSE_CHUNK_SUFFIX ++ '.' :: e) =
      (pre ++ SPARSE_CHUNK_SUFFIX, '.' :: e) := by
  have hdig : ∀ a ∈ e.reverse, (fun c => c ≠ '.' && c ≠ '/') a = true := by
    intro a ha
    have ha' : a ∈ e := List.mem_reverse.mp ha
    have := digit_ne_dot_slash a (by
      rw [List.all_eq_true] at he2
      exact he2 a ha')
    simp [this.1, this.2]
  have hrev : (pre ++ SPARSE_CHUNK_SUFFIX ++ '.' :: e).reverse =
      e.reverse ++ '.' :: (pre ++ SPARSE_CHUNK_SUFFIX).reverse := by
    rw [List.reverse_append, List.reverse_cons, List.append_assoc]
    rfl
  have htake : (e.reverse ++ '.' :: (pre ++ SPARSE_CHUNK_SUFFIX).reverse).takeWhile
      (fun c => c ≠ '.' && c ≠ '/') = e.reverse := by
    rw [List.takeWhile_append_of_pos hdig]
    rw [show List.takeWhile (fun c => c ≠ '.' && c ≠ '/')
      ('.' :: (pre ++ SPARSE_CHUNK_SUFFIX).reverse) = []
      from by rw [List.takeWhile_cons]; simp]
    simp
  have hdrop : (e.reverse ++ '.' :: (pre ++ SPARSE_CHUNK_SUFFIX).reverse).drop
      e.reverse.length = '.' :: (pre ++ SPARSE_CHUNK_SUFFIX).reverse :=
    List.drop_left _ _
  have hany : (((pre ++ SPARSE_CHUNK_SUFFIX).reverse).takeWhile
      (fun x => decide (x ≠ '/'))).any (fun x => decide (x ≠ '.')) = true := by
    rw [List.reverse_append]
    rw [show SPARSE_CHUNK_SUFFIX.reverse = 'k' :: nm "nuhcesraps_" from by decide]
    rw [show ('k' :: nm "nuhcesraps_") ++ pre.reverse =
      'k' :: (nm "nuhcesraps_" ++ pre.reverse) from rfl]
    rw [List.takeWhile_cons]
    simp
  unfold splitext
  simp only [hrev, htake, hdrop, hany, if_true]
  simp

theorem chunk_basename (dir name e : Name) (hname : '/' ∉ name)
    (he2 : e.all (·.isDigit) = true) :
    basename (chunkPath dir name e) = name ++ SPARSE_CHUNK_SUFFIX ++ '.' :: e := by
  apply basename_pjoin
  intro hmem
  rcases List.mem_append.mp hmem with hmem | hmem
  · rcases List.mem_append.mp hmem with hmem | hmem
    · exact hname hmem
    · exact absurd hmem (by decide)
  · rcases List.mem_cons.mp hmem with hmem | hmem
    · cases hmem
    · rw [List.all_eq_true] at he2
      exact (digit_ne_dot_slash _ (he2 _ hmem)).2 rfl

theorem chunk_index (dir name e : Name) (he1 : e ≠ [])
    (he2 : e.all (·.isDigit) = true) :
    partition_chunk_index (chunkPath dir name e) = parseNat e := by
  unfold partition_chunk_index
  have hform : chunkPath dir name e =
      (dir ++ '/' :: name) ++ SPARSE_CHUNK_SUFFIX ++ '.' :: e := by
    unfold chunkPath pjoin
    simp [List.append_assoc]
  rw [hform, splitext_sparsechunk _ _ he1 he2]
  rfl

theorem endsWith_append (a b : Name) : endsWith (a ++ b) b = true := by
  unfold endsWith
  exact List.isSuffixOf_iff_suffix.mpr ⟨a, rfl⟩

theorem take_sub_append (a b : Name) :
    (a ++ b).take ((a ++ b).length - b.length) = a := by
  rw [List.length_append, Nat.add_sub_cancel]
  exact List.take_left a b

theorem sparseRawGroupStep_chunk (dir name e : Name) (hname : '/' ∉ name)
    (he1 : e ≠ []) (he2 : e.all (·.isDigit) = true)
    (nfps : List Name) (cmap : List (Name × List Name)) (fs : FS) :
    sparseRawGroupStep (nfps, cmap, fs) (chunkPath dir name e) =
      (nfps ++ [chunkPath dir name e],
       if (cmap.find? (fun kv => kv.1 == name)).isSome then
         cmap.map (fun kv =>
           if kv.1 == name then (kv.1, kv.2 ++ [chunkPath dir name e]) else kv)
       else cmap ++ [(name, [chunkPath dir name e])],
       fs) := by
  have hb := chunk_basename dir name e hname he2
  have hsp : (splitext (basename (chunkPath dir name e))).1 =
      name ++ SPARSE_CHUNK_SUFFIX := by
    rw [hb, splitext_sparsechunk name e he1 he2]
  unfold sparseRawGroupStep
  simp only [hsp, endsWith_append, if_true, take_sub_append]

theorem sparseRawGroup_aux (dir name : Name) (hname : '/' ∉ name) :
    ∀ (l : List Name) (nfps cs : List Name) (fs : FS),
      (∀ fp ∈ l, ∃ e : Name, fp = chunkPath dir name e ∧ e ≠ [] ∧
        e.all (·.isDigit) = true) →
      l.foldl sparseRawGroupStep (nfps, [(name, cs)], fs) =
        (nfps ++ l, [(name, cs ++ l)], fs) := by
  intro l
  induction l with
  | nil => intro nfps cs fs _; simp
  | cons fp t ih =>
    intro nfps cs fs hl
    obtain ⟨e, rfl, he1, he2⟩ := hl fp (List.mem_cons_self fp t)
    rw [List.foldl_cons,
      sparseRawGroupStep_chunk dir name e hname he1 he2]
    rw [if_pos (by simp [List.find?])]
    rw [show ([(name, cs)] : List (Name × List Name)).map (fun kv =>
        if kv.1 == name then (kv.1, kv.2 ++ [chunkPath dir name e]) else kv) =
      [(name, cs ++ [chunkPath dir name e])] from by simp]
    rw [ih (nfps ++ [chunkPath dir name e]) (cs ++ [chunkPath dir name e]) fs
      (fun fp hfp => hl fp (List.mem_cons_of_mem _ hfp))]
    simp

/-- C7: for every ChunkSet `name_sparsechunk.<e>` with numeric index
strings `exts`, and **every order** `file_paths` in which the
directory scan returned the chunks, the `simg2img` command line built
by the sparse-raw stage lists exactly the chunk files, sorted in
ascending numeric index order. -/
theorem claim_C7 (output_dir dir name : Name) (exts : List Name)
    (file_paths : List Name) (fs : FS)
    (hname : '/' ∉ name)
    (hexts : ∀ e ∈ exts, e ≠ [] ∧ e.all (·.isDigit) = true)
    (hperm : file_paths.Perm (exts.map (chunkPath dir name))) :
    ∃ procs,
      sparseRawProcs (sparseRawGroup file_paths fs).2.1 output_dir =
        .ok procs ∧
      ∀ lbl argv, (lbl, argv) ∈ procs →
        ∃ chunks,
          argv = simg2img_path :: (chunks ++ [pjoin output_dir lbl]) ∧
          chunks.Perm file_paths ∧
          chunks.Pairwise (fun a b =>
            (partition_chunk_index a).getD 0 ≤ (partition_chunk_index b).getD 0) := by
  have hl : ∀ fp ∈ file_paths, ∃ e : Name, fp = chunkPath dir name e ∧
      e ≠ [] ∧ e.all (·.isDigit) = true := by
    intro fp hfp
    rcases List.mem_map.mp (hperm.mem_iff.mp hfp) with ⟨e, he, hfpe⟩
    exact ⟨e, hfpe.symm, (hexts e he).1, (hexts e he).2⟩
  rcases hsplit : file_paths with _ | ⟨fp, t⟩
  · exact ⟨[], rfl, fun lbl argv h => absurd h (List.not_mem_nil _)⟩
  · rw [hsplit] at hl hperm
    have hgroup : sparseRawGroup (fp :: t) fs = (fp :: t, [(name, fp :: t)], fs) := by
      obtain ⟨e0, hfp0, he01, he02⟩ := hl fp (List.mem_cons_self fp t)
      unfold sparseRawGroup
      rw [List.foldl_cons]
      rw [hfp0, sparseRawGroupStep_chunk dir name e0 hname he01 he02]
      rw [if_neg (by simp)]
      simp only [List.nil_append]
      rw [sparseRawGroup_aux dir name hname t [chunkPath dir name e0]
        [chunkPath dir name e0] fs
        (fun q hq => hl q (List.mem_cons_of_mem _ hq))]
      simp
    have hall : (fp :: t).all (fun c => (partition_chunk_index c).isSome) = true := by
      rw [List.all_eq_true]
      intro q hq
      obtain ⟨e, hqe, he1, he2⟩ := hl q hq
      rw [hqe, chunk_index dir name e he1 he2]
      simp [parseNat, he1, he2]
    have hprocs : sparseRawProcs [(name, fp :: t)] output_dir =
        .ok [(name, simg2img_path ::
          ((fp :: t).mergeSort (fun a b =>
            (partition_chunk_index a).getD 0 ≤ (partition_chunk_index b).getD 0) ++
           [pjoin output_dir name]))] := by
      unfold sparseRawProcs
      rw [List.mapM_cons, List.mapM_nil]
      simp [hall]
    rw [hgroup]
    refine ⟨_, hprocs, ?_⟩
    intro lbl argv hmem
    have hpair := List.mem_singleton.mp hmem
    have hlbl : lbl = name := congrArg Prod.fst hpair
    have hargv : argv = simg2img_path ::
        ((fp :: t).mergeSort (fun a b =>
          (partition_chunk_index a).getD 0 ≤ (partition_chunk_index b).getD 0) ++
         [pjoin output_dir name]) := congrArg Prod.snd hpair
    refine ⟨(fp :: t).mergeSort (fun a b =>
      (partition_chunk_index a).getD 0 ≤ (partition_chunk_index b).getD 0),
      ?_, ?_, ?_⟩
    · rw [hlbl]
      exact hargv
    · exact List.mergeSort_perm _ _
    · have htrans : ∀ a b c : Name,
          ((partition_chunk_index a).getD 0 ≤ (partition_chunk_index b).getD 0 : Bool) →
          ((partition_chunk_index b).getD 0 ≤ (partition_chunk_index c).getD 0 : Bool) →
          ((partition_chunk_index a).getD 0 ≤ (partition_chunk_index c).getD 0 : Bool) := by
        intro a b c hab hbc
        simp only [decide_eq_true_eq] at hab hbc ⊢
        exact Nat.le_trans hab hbc
      have htotal : ∀ a b : Name,
          (((partition_chunk_index a).getD 0 ≤ (partition_chunk_index b).getD 0 : Bool) ||
           ((partition_chunk_index b).getD 0 ≤ (partition_chunk_index a).getD 0 : Bool)) = true := by
        intro a b
        simp only [Bool.or_eq_true, decide_eq_true_eq]
        exact Nat.le_total _ _
      have hsorted := List.sorted_mergeSort htrans htotal (fp :: t)
      exact hsorted.imp (fun h => by simpa using h)

/-- C7 witness: a three-chunk set scanned in the shuffled order
1, 0, 2 still yields an ascending `simg2img` command line. -/
theorem claim_C7_witness :
    ∃ procs,
      sparseRawProcs (sparseRawGroup
        [chunkPath (nm "dump") (nm "system.img") (nm "1"),
         chunkPath (nm "dump") (nm "system.img") (nm "0"),
         chunkPath (nm "dump") (nm "system.img") (nm "2")] []).2.1 (nm "dump") =
        .ok procs ∧
      ∀ lbl argv, (lbl, argv) ∈ procs →
        ∃ chunks,
          argv = simg2img_path :: (chunks ++ [pjoin (nm "dump") lbl]) ∧
          chunks.Perm
            [chunkPath (nm "dump") (nm "system.img") (nm "1"),
             chunkPath (nm "dump") (nm "system.img") (nm "0"),
             chunkPath (nm "dump") (nm "system.img") (nm "2")] ∧
          chunks.Pairwise (fun a b =>
            (partition_chunk_index a).getD 0 ≤ (partition_chunk_index b).getD 0) :=
  claim_C7 (nm "dump") (nm "dump") (nm "system.img") [nm "0", nm "1", nm "2"]
    [chunkPath (nm "dump") (nm "system.img") (nm "1"),
     chunkPath (nm "dump") (nm "system.img") (nm "0"),
     chunkPath (nm "dump") (nm "system.img") (nm "2")] []
    (by decide) (by decide) (by decide)
